import Mathlib

/-!
# Verification of the call-record ingestion worker

Shallow embedding of the ingestion pipeline of this repository:

* the structured (JSON) import endpoint `importData` — body parsing, the
  required-field check, chunked transactional upsert into `mxbc_call`,
  audit logging into `import_logs`, and the HTTP response;
* the spreadsheet import endpoint (`importDataXlsx` here; the source names
  both endpoints `importData`, in two files) — header validation against the
  localized field names, projection of data rows through the field mapping,
  and the same database phase;
* the JWT helpers `generateJWT` / `verifyJWT` of the auth worker;
* the idempotency cache of the fire-and-acknowledge path (modelled from the
  spec; that source file is not among the provided sources).

Store effects (connection, transaction, queries, commit/rollback) are made
explicit: the database is a state, a transaction is a buffered table, and
failure of the k-th chunk query or of the k-th audit-log write is injected
through Boolean oracles, mirroring a `throw` at the corresponding `await`.
-/

namespace Ingest

/-- One persisted row of the target table `mxbc_call`: the 16 canonical
string-typed fields, in the column order of the INSERT statement. -/
structure DbRow where
  call_id : String
  caller_number : String
  callee_number : String
  call_type : String
  call_time : String
  agent_call_time : String
  department : String
  agent_name : String
  agent_id : String
  call_status : String
  skill_group : String
  end_node : String
  key_track : String
  province : String
  city : String
  pbx_name : String
deriving DecidableEq, Repr

/-- One row of the audit table `import_logs`:
`(table_name, rows_imported, status, error_message?)`. -/
structure LogEntry where
  table_name : String
  rows_imported : Nat
  status : String
  error_message : Option String
deriving DecidableEq, Repr

/-- The committed (durable) database state: the `mxbc_call` table and the
`import_logs` audit table. -/
structure Store where
  table : List DbRow
  logs : List LogEntry
deriving DecidableEq, Repr

/-- An HTTP response: `new Response(body, \x7bstatus\x7d)`. -/
structure Response where
  body : String
  status : Nat
deriving DecidableEq, Repr

/-- Observable store interactions of one `importData` invocation: whether a
connection was acquired, whether a transaction was begun, how many chunk
INSERT statements were issued, and whether commit / rollback was issued. -/
structure Trace where
  connAcquired : Bool
  beganTx : Bool
  chunkQueries : Nat
  committed : Bool
  rolledBack : Bool
deriving DecidableEq, Repr

/-- The trace of an invocation that returns before touching the store. -/
def Trace.untouched : Trace := ⟨false, false, 0, false, false⟩

/-- Result of one `importData` invocation: the HTTP response, the committed
store afterwards, and the trace of store interactions. -/
structure ImportResult where
  resp : Response
  store : Store
  trace : Trace
deriving DecidableEq, Repr

/-- A parsed JSON row object: an association list of key/value pairs
(JSON.parse yields unique keys; values are taken as strings at this layer). -/
abbrev JsonRow := List (String × String)

/-- The required canonical field names, in the order the source checks them
(`requiredFields` of the JSON import worker). -/
def requiredFields : List String :=
  ["call_id", "caller_number", "callee_number", "call_type", "call_time",
   "agent_call_time", "department", "agent_name", "agent_id", "call_status",
   "skill_group", "end_node", "key_track", "province", "city", "pbx_name"]

/-- `field in row`: key membership of a JSON object. -/
def hasKey (row : JsonRow) (f : String) : Bool := row.any (fun kv => kv.1 == f)

/-- The inner validation loop: the first required field missing from `row`,
in `requiredFields` order. -/
def firstMissingField (row : JsonRow) : Option String :=
  requiredFields.find? (fun f => !hasKey row f)

/-- The outer validation loop: the first missing required field of the first
offending row — the field named by the 400 response. -/
def findMissing : List JsonRow → Option String
  | [] => none
  | r :: rs =>
    match firstMissingField r with
    | some f => some f
    | none => findMissing rs

/-- `row.field` on a validated JSON row (validation guarantees the key is
present on every path that reaches the database, so the default is dead). -/
def jget (row : JsonRow) (f : String) : String := (List.lookup f row).getD ""

/-- The 16-value tuple `[row.call_id, …, row.pbx_name]` built for the
INSERT placeholders, as a `DbRow`. -/
def toDbRow (row : JsonRow) : DbRow :=
  ⟨jget row "call_id", jget row "caller_number", jget row "callee_number",
   jget row "call_type", jget row "call_time", jget row "agent_call_time",
   jget row "department", jget row "agent_name", jget row "agent_id",
   jget row "call_status", jget row "skill_group", jget row "end_node",
   jget row "key_track", jget row "province", jget row "city",
   jget row "pbx_name"⟩

/-- One value-tuple of the multi-row
`INSERT … ON DUPLICATE KEY UPDATE call_id = VALUES(call_id)`:
if a row with this business key exists, MySQL applies the update list —
which reassigns only `call_id`, to its own value — to the matching row;
otherwise the tuple is inserted as a new row. -/
def upsertRow (table : List DbRow) (r : DbRow) : List DbRow :=
  if table.any (fun x => x.call_id == r.call_id) then
    table.map (fun x =>
      if x.call_id == r.call_id then { x with call_id := r.call_id } else x)
  else
    table ++ [r]

/-- One chunk INSERT statement: its value tuples are processed in order. -/
def applyChunk (table : List DbRow) (chunk : List DbRow) : List DbRow :=
  chunk.foldl upsertRow table

/-- Fueled body of the chunking loop: each iteration consumes at least one
record (for `c ≠ 0`), so the record count is an upper bound on the number of
iterations and the zero-fuel case with records left is unreachable from
`chunks`.  (Structural recursion on the fuel keeps the definition reducible
by the kernel.) -/
def chunksGo (c : Nat) : Nat → List α → List (List α)
  | _, [] => []
  | 0, _ :: _ => []
  | fuel + 1, a :: rest => (a :: rest).take c :: chunksGo c fuel ((a :: rest).drop c)

/-- The chunking loop `for (let i = 0; i < rows.length; i += batchSize)`
with `batch = rows.slice(i, i + batchSize)`: consecutive chunks of at most
`c` elements.  (The source only ever runs it with `c = 1000`; with `c = 0`
the source loop would not terminate, so `c = 0` is mapped to no chunks.) -/
def chunks (c : Nat) (l : List α) : List (List α) :=
  if c = 0 then [] else chunksGo c l.length l

/-- State of the chunk loop: the transaction-buffered table, the number of
chunk INSERT statements issued so far, the running `successCount`, and
whether a chunk query has raised. -/
structure ChunkRun where
  tx : List DbRow
  issued : Nat
  successCount : Nat
  failed : Bool
deriving DecidableEq, Repr

/-- The chunk loop body: issue the k-th chunk query (`chunkFail k` tells
whether that `await connection.query` raises; a raising statement leaves the
transaction buffer as it was), then `successCount += batch.length`. -/
def runChunks (chunkFail : Nat → Bool) : Nat → ChunkRun → List (List DbRow) → ChunkRun
  | _, st, [] => st
  | k, st, b :: bs =>
    if chunkFail k then { st with issued := st.issued + 1, failed := true }
    else
      runChunks chunkFail (k + 1)
        { st with
            tx := applyChunk st.tx b
            issued := st.issued + 1
            successCount := st.successCount + b.length } bs

/-- The Batch Upsert Engine: chunk the record set, map each chunk to its
value tuples, and drive the chunk loop over the transaction buffer. -/
def batchUpsert (c : Nat) (chunkFail : Nat → Bool) (table : List DbRow)
    (rows : List JsonRow) : ChunkRun :=
  runChunks chunkFail 0 ⟨table, 0, 0, false⟩ ((chunks c rows).map (List.map toDbRow))

/-- The audit-log entry written on the success path. -/
def successLog (n : Nat) : LogEntry := ⟨"mxbc_call", n, "success", none⟩

/-- The audit-log entry written on the failure path (`String(error)` is the
text of the store error; it is not interpreted, so it is a fixed marker). -/
def failedLog : LogEntry := ⟨"mxbc_call", 0, "failed", some "error"⟩

/-- The database phase shared verbatim by the two import workers: begin a
transaction, run the chunk loop, then commit + success log + 200, or (on the
first raise inside the inner `try`) rollback + failure log + 500.  `logFail k`
tells whether the k-th audit-log `execute` of this invocation raises; a raise
of a log write lands in the next enclosing handler exactly as in the source:
a raising success log enters the inner `catch` (rollback after commit is a
no-op on committed data, then the failure log is attempted), and a raising
failure log propagates to the outer handler (500 "Internal Server Error"). -/
def dbPhase (chunkFail logFail : Nat → Bool) (rows : List JsonRow)
    (store : Store) : ImportResult :=
  let run := batchUpsert 1000 chunkFail store.table rows
  if run.failed then
    if logFail 0 then
      ⟨⟨"Internal Server Error", 500⟩, store, ⟨true, true, run.issued, false, true⟩⟩
    else
      ⟨⟨"Failed to import data", 500⟩,
        { store with logs := store.logs ++ [failedLog] },
        ⟨true, true, run.issued, false, true⟩⟩
  else
    let committed : Store := { store with table := run.tx }
    if logFail 0 then
      if logFail 1 then
        ⟨⟨"Internal Server Error", 500⟩, committed, ⟨true, true, run.issued, true, true⟩⟩
      else
        ⟨⟨"Failed to import data", 500⟩,
          { committed with logs := committed.logs ++ [failedLog] },
          ⟨true, true, run.issued, true, true⟩⟩
    else
      ⟨⟨"Successfully imported " ++ toString run.successCount ++ " rows", 200⟩,
        { committed with logs := committed.logs ++ [successLog run.successCount] },
        ⟨true, true, run.issued, true, false⟩⟩

/-- The parsed request body of the structured import endpoint: `body.rows`
is absent, is not an array, or is an array of row objects; `parseError`
stands for `request.json()` itself raising. -/
inductive RequestBody where
  | parseError
  | rowsAbsent
  | rowsNotArray
  | rows (rs : List JsonRow)
deriving DecidableEq, Repr

/-- The structured import endpoint (`importData` of the JSON worker):
reject a missing/non-array/empty `rows`, validate required fields fail-fast,
then connect and run the database phase. -/
def importData (chunkFail logFail : Nat → Bool) (body : RequestBody)
    (store : Store) : ImportResult :=
  match body with
  | .parseError => ⟨⟨"Internal Server Error", 500⟩, store, Trace.untouched⟩
  | .rowsAbsent => ⟨⟨"Missing or invalid data", 400⟩, store, Trace.untouched⟩
  | .rowsNotArray => ⟨⟨"Missing or invalid data", 400⟩, store, Trace.untouched⟩
  | .rows rows =>
    if rows.isEmpty then ⟨⟨"Missing or invalid data", 400⟩, store, Trace.untouched⟩
    else
      match findMissing rows with
      | some f => ⟨⟨"Missing required field: " ++ f, 400⟩, store, Trace.untouched⟩
      | none => dbPhase chunkFail logFail rows store

/-! ## The spreadsheet import worker -/

/-- The required localized header names, in the order the source checks them
(`requiredFields` of the spreadsheet import worker). -/
def requiredLocalized : List String :=
  ["主叫号码", "被叫号码", "呼叫类型", "呼叫时间", "坐席通话时间", "部门",
   "接听坐席", "工号", "接听状态", "呼入技能组", "终结节点", "按键轨迹",
   "省", "市", "通话ID", "PBX名称"]

/-- The static `fieldMapping` from localized header text to canonical field
name, in source order. -/
def fieldMappingPairs : List (String × String) :=
  [("主叫号码", "caller_number"), ("被叫号码", "callee_number"),
   ("呼叫类型", "call_type"), ("呼叫时间", "call_time"),
   ("坐席通话时间", "agent_call_time"), ("部门", "department"),
   ("接听坐席", "agent_name"), ("工号", "agent_id"),
   ("接听状态", "call_status"), ("呼入技能组", "skill_group"),
   ("终结节点", "end_node"), ("按键轨迹", "key_track"),
   ("省", "province"), ("市", "city"), ("通话ID", "call_id"),
   ("PBX名称", "pbx_name")]

/-- `fieldMapping[h]`: `some canonical` for a mapped header, `none`
(undefined) otherwise. -/
def fieldMappingLookup (h : String) : Option String :=
  List.lookup h fieldMappingPairs

/-- `String(value || "")` on a string-valued cell: the empty string (the
only falsy string) maps to itself, everything else is unchanged. -/
def jsCoerce (v : String) : String := if v = "" then "" else v

/-- `rowData[k] = v` on a plain object: overwrite the value of an existing
key, otherwise append the new property. -/
def assocSet (acc : JsonRow) (k v : String) : JsonRow :=
  if acc.any (fun p => p.1 == k) then
    acc.map (fun p => if p.1 == k then (k, v) else p)
  else
    acc ++ [(k, v)]

/-- The body of `row.forEach((value, index) => …)`: a cell of the sheet is
either present (`some v`) or a hole (`none`, a blank cell skipped by the
tabular reader — `forEach` does not visit it).  For a visited cell the
header at the same index is looked up in the field mapping; an out-of-range
or blank header, or an unmapped header, contributes nothing. -/
def projectRowAux (headers : List (Option String)) :
    Nat → List (Option String) → JsonRow → JsonRow
  | _, [], acc => acc
  | i, none :: rest, acc => projectRowAux headers (i + 1) rest acc
  | i, some v :: rest, acc =>
    let acc' :=
      match headers[i]? with
      | some (some h) =>
        match fieldMappingLookup h with
        | some m => assocSet acc m (jsCoerce v)
        | none => acc
      | _ => acc
    projectRowAux headers (i + 1) rest acc'

/-- Projection of one data row through the field mapping (the body of
`jsonData.slice(1).map((row) => …)`): builds `rowData` from the empty
object. -/
def projectRow (headers : List (Option String)) (row : List (Option String)) : JsonRow :=
  projectRowAux headers 0 row []

/-- The spreadsheet import endpoint (`importData` of the spreadsheet
worker; renamed here because the two workers use the same function name):
reject a missing file, validate the header row against the required localized
names, project each data row through the field mapping, and run the same
database phase.  An empty sheet makes `jsonData[0]` undefined, so the
header check raises a TypeError that the outer handler turns into a 500. -/
def importDataXlsx (chunkFail logFail : Nat → Bool)
    (file : Option (List (List (Option String)))) (store : Store) : ImportResult :=
  match file with
  | none => ⟨⟨"Missing file", 400⟩, store, Trace.untouched⟩
  | some [] => ⟨⟨"Internal Server Error", 500⟩, store, Trace.untouched⟩
  | some (headerRow :: dataRows) =>
    match requiredLocalized.find? (fun f => !(headerRow.contains (some f))) with
    | some f => ⟨⟨"Missing required field: " ++ f, 400⟩, store, Trace.untouched⟩
    | none =>
      let rows := dataRows.map (projectRow headerRow)
      dbPhase chunkFail logFail rows store

end Ingest

namespace FireAck

/-!
## The fire-and-acknowledge path (modelled from the spec)

The idempotency cache and the fire-and-acknowledge endpoint are described by
the spec (§4.2 Idempotency Cache, §6 fire-and-acknowledge endpoint, §5) but
their source file is not among the provided sources; the definitions below
are modelled from the spec's words.
-/

/-- Modelled from the spec: the fixed idempotency TTL window, "alive for a
fixed window (5 minutes)", in milliseconds. -/
def TTLms : Nat := 5 * 60 * 1000

/-- Modelled from the spec: the process-wide map from request key to the
time the key was marked as seen. -/
structure CacheState where
  entries : List (String × Nat)
deriving DecidableEq, Repr

/-- Modelled from the spec: `checkAndMark(key) -> \x7bfresh\x7d | \x7bduplicate\x7d`:
one atomic step that reports `duplicate` (`false`) for a key seen within the
TTL window and otherwise marks the key as seen now and reports `fresh`
(`true`); a key's entry is evicted after the TTL (here lazily, by treating
an expired entry as absent and overwriting it). -/
def checkAndMark (st : CacheState) (key : String) (now : Nat) : Bool × CacheState :=
  match List.lookup key st.entries with
  | some t =>
    if now < t + TTLms then (false, st)
    else (true, ⟨(key, now) :: st.entries.filter (fun p => !(p.1 == key))⟩)
  | none => (true, ⟨st.entries ++ [(key, now)]⟩)

/-- The phases of one fire-and-acknowledge request: the atomic
check-and-mark, the downstream persistence write (only on `fresh`), and the
emission of the fixed success token. -/
inductive Phase where
  | check
  | persist
  | respond
  | done
deriving DecidableEq, Repr

/-- One in-flight request: its phase, its arrival time, the result its
check-and-mark observed, and the response it emitted. -/
structure Thread where
  pc : Phase
  time : Nat
  fresh : Bool
  resp : Option String
deriving DecidableEq, Repr

/-- Two concurrent requests sharing one idempotency key, the process-wide
cache, and the number of downstream persistence executions for that key. -/
structure Sys where
  cache : CacheState
  t1 : Thread
  t2 : Thread
  persistCount : Nat
deriving DecidableEq, Repr

/-- One atomic action of one request: check-and-mark (branching to the
persistence step only on `fresh`), the persistence write, or the response.
Returns the updated thread, the updated cache and the persistence-count
increment. -/
def threadStep (key : String) (cache : CacheState) (t : Thread) :
    Thread × CacheState × Nat :=
  match t.pc with
  | .check =>
    let r := checkAndMark cache key t.time
    ({ t with pc := if r.1 then .persist else .respond, fresh := r.1 }, r.2, 0)
  | .persist => ({ t with pc := .respond }, cache, 1)
  | .respond => ({ t with pc := .done, resp := some "success" }, cache, 0)
  | .done => (t, cache, 0)

/-- Interleaving: schedule one atomic action of the chosen request. -/
def step (key : String) (s : Sys) (i : Bool) : Sys :=
  if i then
    let r := threadStep key s.cache s.t1
    { s with t1 := r.1, cache := r.2.1, persistCount := s.persistCount + r.2.2 }
  else
    let r := threadStep key s.cache s.t2
    { s with t2 := r.1, cache := r.2.1, persistCount := s.persistCount + r.2.2 }

/-- Run a schedule (an arbitrary interleaving of the two requests'
atomic actions). -/
def run (key : String) (s : Sys) (sched : List Bool) : Sys :=
  sched.foldl (step key) s

/-- Both requests arrive with the cache empty of their key. -/
def initSys (time1 time2 : Nat) : Sys :=
  ⟨⟨[]⟩, ⟨.check, time1, false, none⟩, ⟨.check, time2, false, none⟩, 0⟩

/-- A request whose check observed `duplicate` (or that has not checked
yet): it never reaches the persistence step. -/
def follower (t : Thread) : Prop := t.fresh = false ∧ t.pc ≠ Phase.persist

/-- The one request whose check observed `fresh`: it is on its way to the
persistence step (none executed yet) or past it (exactly one executed). -/
def marker (t : Thread) (pcount : Nat) : Prop :=
  t.fresh = true ∧
  ((t.pc = Phase.persist ∧ pcount = 0) ∨
   ((t.pc = Phase.respond ∨ t.pc = Phase.done) ∧ pcount = 1))

/-- The interleaving invariant: request times never change; a finished
request has emitted the success token; and either the key is unseen and
neither request has acted, or the key is marked with one of the two arrival
times and exactly one request (the marker) observed `fresh` and accounts
for every persistence execution, while the other is a follower. -/
def inv (key : String) (time1 time2 : Nat) (s : Sys) : Prop :=
  s.t1.time = time1 ∧ s.t2.time = time2 ∧
  (s.t1.pc = Phase.done → s.t1.resp = some "success") ∧
  (s.t2.pc = Phase.done → s.t2.resp = some "success") ∧
  ((s.cache.entries = [] ∧ s.t1.pc = Phase.check ∧ s.t2.pc = Phase.check ∧
      s.t1.fresh = false ∧ s.t2.fresh = false ∧ s.persistCount = 0) ∨
   (∃ t, (t = time1 ∨ t = time2) ∧ s.cache.entries = [(key, t)] ∧
      ((marker s.t1 s.persistCount ∧ follower s.t2) ∨
       (marker s.t2 s.persistCount ∧ follower s.t1))))

end FireAck

namespace Jwt

/-!
## The Web-Crypto JWT helpers of the auth worker

`generateJWT` / `verifyJWT` of `src/index.ts`, modelled at the byte level:
strings are lists of character codes or characters, `btoa`/`atob` are the
standard base64 codec on byte lists, and the HMAC-SHA256 primitive of
`crypto.subtle` is a parameter `hmac : secret → message → mac` about which
only the SHA-256 output shape (32 bytes, each below 256) is assumed —
`crypto.subtle.verify` recomputes the MAC of the signing input and compares
it byte-for-byte with the provided signature bytes.  `JSON.stringify` of the
header and of the payload-with-expiry (and `JSON.parse`/`exp` extraction on
the accepting path, which is never reached) are likewise kept abstract:
`generateJWT` receives the serialized header and payload as byte lists.
-/

/-- The standard base64 alphabet, index 0–63. -/
def base64Alphabet : List Char :=
  ['A', 'B', 'C', 'D', 'E', 'F', 'G', 'H', 'I', 'J', 'K', 'L', 'M',
   'N', 'O', 'P', 'Q', 'R', 'S', 'T', 'U', 'V', 'W', 'X', 'Y', 'Z',
   'a', 'b', 'c', 'd', 'e', 'f', 'g', 'h', 'i', 'j', 'k', 'l', 'm',
   'n', 'o', 'p', 'q', 'r', 's', 't', 'u', 'v', 'w', 'x', 'y', 'z',
   '0', '1', '2', '3', '4', '5', '6', '7', '8', '9', '+', '/']

/-- The alphabet character of a sextet (the fallback is never reached for
sextets below 64). -/
def b64char (n : Nat) : Char := base64Alphabet.getD n '?'

/-- `btoa`: standard base64 of a byte list, with `=` padding. -/
def btoaChars : List Nat → List Char
  | [] => []
  | [a] => [b64char (a / 4), b64char (a % 4 * 16), '=', '=']
  | [a, b] => [b64char (a / 4), b64char (a % 4 * 16 + b / 16), b64char (b % 16 * 4), '=']
  | a :: b :: c :: rest =>
    b64char (a / 4) :: b64char (a % 4 * 16 + b / 16) ::
    b64char (b % 16 * 4 + c / 64) :: b64char (c % 64) :: btoaChars rest

/-- `base64UrlEncode`: `btoa(JSON.stringify(obj))` followed by
`.replace(/=/g, "").replace(/\+/g, "-").replace(/\//g, "_")`. -/
def base64UrlEncode (bytes : List Nat) : List Char :=
  ((btoaChars bytes).filter (fun ch => ch ≠ '=')).map
    (fun ch => if ch = '+' then '-' else if ch = '/' then '_' else ch)

/-- Index of a character in the base64 alphabet (`none` makes `atob` throw
`InvalidCharacterError`). -/
def b64Index (ch : Char) : Option Nat := base64Alphabet.indexOf? ch

/-- `atob` on characters: decode sextet groups of four into three bytes; a
trailing group of two or three characters yields one or two bytes, a
trailing single character is invalid.  (`=` padding never occurs in the
strings this development feeds to it.) -/
def atobBytes : List Char → Option (List Nat)
  | [] => some []
  | [c1, c2] => do
    let n1 ← b64Index c1
    let n2 ← b64Index c2
    some [n1 * 4 + n2 / 16]
  | [c1, c2, c3] => do
    let n1 ← b64Index c1
    let n2 ← b64Index c2
    let n3 ← b64Index c3
    some [n1 * 4 + n2 / 16, n2 % 16 * 16 + n3 / 4]
  | c1 :: c2 :: c3 :: c4 :: rest => do
    let n1 ← b64Index c1
    let n2 ← b64Index c2
    let n3 ← b64Index c3
    let n4 ← b64Index c4
    let bs ← atobBytes rest
    some ((n1 * 4 + n2 / 16) :: (n2 % 16 * 16 + n3 / 4) :: (n3 % 4 * 64 + n4) :: bs)
  | [_] => none

/-- One hex digit, lowercase (`Number.prototype.toString(16)`). -/
def hexChar (n : Nat) : Char :=
  if n < 10 then Char.ofNat (48 + n) else Char.ofNat (87 + n)

/-- `byte.toString(16).padStart(2, "0")` for a `Uint8Array` byte (0–255). -/
def hexByte (b : Nat) : List Char := [hexChar (b / 16), hexChar (b % 16)]

/-- `token.split(".")` on characters. -/
def splitOnDot : List Char → List (List Char)
  | [] => [[]]
  | ch :: rest =>
    if ch = '.' then [] :: splitOnDot rest
    else
      match splitOnDot rest with
      | [] => [[ch]]
      | p :: ps => (ch :: p) :: ps

/-- `generateJWT(payload, secret)`: base64url-encode the serialized header
and the serialized payload-with-expiry, HMAC-sign `header.payload` with the
secret, and append the signature bytes rendered as a HEX string. -/
def generateJWT (hmac : List Nat → List Nat → List Nat)
    (headerJson payloadJson secret : List Nat) : List Char :=
  let encodedHeader := base64UrlEncode headerJson
  let encodedPayload := base64UrlEncode payloadJson
  let signatureInput := encodedHeader ++ '.' :: encodedPayload
  let signatureBytes := hmac secret (signatureInput.map Char.toNat)
  let signature := (signatureBytes.map hexByte).flatten
  encodedHeader ++ '.' :: encodedPayload ++ '.' :: signature

/-- `verifyJWT(token, secret)`: split the token on dots, base64-decode the
signature part with `atob` (a failure there is the thrown
`InvalidCharacterError`), let `crypto.subtle.verify` compare those bytes
against the recomputed HMAC of `header.payload`, then parse the payload and
check the expiry.  `parseExp` abstracts `JSON.parse(atob(payload)).exp`.
(Destructuring fewer than three parts would make `atob(undefined)` throw;
tokens of `generateJWT` always split into exactly three parts.) -/
def verifyJWT (hmac : List Nat → List Nat → List Nat)
    (parseExp : List Nat → Nat) (token : List Char) (secret : List Nat)
    (now : Nat) : Except String (List Nat) :=
  match splitOnDot token with
  | [encodedHeader, encodedPayload, signature] =>
    match atobBytes signature with
    | none => .error "InvalidCharacterError"
    | some sigBytes =>
      let signatureInput := encodedHeader ++ '.' :: encodedPayload
      if sigBytes = hmac secret (signatureInput.map Char.toNat) then
        match atobBytes encodedPayload with
        | none => .error "InvalidCharacterError"
        | some payloadBytes =>
          if parseExp payloadBytes < now then .error "Token expired"
          else .ok payloadBytes
      else .error "Invalid token"
  | _ => .error "TypeError"

end Jwt

namespace Ingest

/-! ## Concrete fixtures used by witnesses and counterexamples -/

/-- A fully populated JSON row (every required canonical field present). -/
def exRow : JsonRow :=
  [("call_id", "1"), ("caller_number", "new"), ("callee_number", "n1"),
   ("call_type", "t"), ("call_time", "tm"), ("agent_call_time", "a"),
   ("department", "d"), ("agent_name", "an"), ("agent_id", "ai"),
   ("call_status", "s"), ("skill_group", "sg"), ("end_node", "e"),
   ("key_track", "k"), ("province", "p"), ("city", "c"), ("pbx_name", "x")]

/-- A stored row sharing `exRow`'s business key `"1"` but carrying
different field values. -/
def exOldRow : DbRow :=
  ⟨"1", "old", "o", "o", "o", "o", "o", "o", "o", "o", "o", "o", "o", "o",
   "o", "o"⟩

end Ingest

/-! # Theorems -/

namespace Ingest

/-! ## Properties of the validation loops -/

/-- `List.find?` returns the first element satisfying the predicate. -/
theorem find?_first {α : Type} {p : α → Bool} {pre : List α} {x : α} (suf : List α)
    (hpre : ∀ g ∈ pre, p g = false) (hx : p x = true) :
    List.find? p (pre ++ x :: suf) = some x := by
  induction pre with
  | nil => simp [List.find?_cons, hx]
  | cons g gs ih =>
    have hg : p g = false := hpre g (by simp)
    simp only [List.cons_append, List.find?_cons, hg]
    exact ih (fun g' hg' => hpre g' (by simp [hg']))

/-- A row with every required field has no first missing field. -/
theorem firstMissingField_none {row : JsonRow}
    (h : ∀ f ∈ requiredFields, hasKey row f = true) :
    firstMissingField row = none := by
  apply List.find?_eq_none.mpr
  intro f hf
  simp [h f hf]

/-- A batch in which every row has every required field passes validation. -/
theorem findMissing_none {rows : List JsonRow}
    (h : ∀ r ∈ rows, ∀ f ∈ requiredFields, hasKey r f = true) :
    findMissing rows = none := by
  induction rows with
  | nil => rfl
  | cons r rs ih =>
    rw [findMissing, firstMissingField_none (h r (by simp))]
    exact ih (fun r' hr' f hf => h r' (by simp [hr']) f hf)

/-- Validation names the first missing required field of the first
offending row: rows before it are fully valid, fields before it (in
`requiredFields` order) are present on the offending row. -/
theorem findMissing_first {pre : List JsonRow} {row : JsonRow} (post : List JsonRow)
    {fpre : List String} {f : String} (fsuf : List String)
    (hreq : requiredFields = fpre ++ f :: fsuf)
    (hpre : ∀ r ∈ pre, ∀ g ∈ requiredFields, hasKey r g = true)
    (hfpre : ∀ g ∈ fpre, hasKey row g = true)
    (hf : hasKey row f = false) :
    findMissing (pre ++ row :: post) = some f := by
  induction pre with
  | nil =>
    simp only [List.nil_append]
    rw [findMissing]
    have : firstMissingField row = some f := by
      rw [firstMissingField, hreq]
      exact find?_first fsuf (fun g hg => by simp [hfpre g hg]) (by simp [hf])
    rw [this]
  | cons r rs ih =>
    simp only [List.cons_append]
    rw [findMissing, firstMissingField_none (hpre r (by simp))]
    exact ih (fun r' hr' g hg => hpre r' (by simp [hr']) g hg)

/-! ## Properties of the chunking loop -/

theorem chunksGo_fuel_irrel {α : Type} {c : Nat} (hc : c ≠ 0) :
    ∀ (fuel₁ fuel₂ : Nat) (l : List α), l.length ≤ fuel₁ → l.length ≤ fuel₂ →
      chunksGo c fuel₁ l = chunksGo c fuel₂ l := by
  intro fuel₁
  induction fuel₁ with
  | zero =>
    intro fuel₂ l h1 _
    have : l = [] := List.length_eq_zero.mp (Nat.le_zero.mp h1)
    subst this
    cases fuel₂ <;> rfl
  | succ f ih =>
    intro fuel₂ l h1 h2
    cases l with
    | nil => cases fuel₂ <;> rfl
    | cons a rest =>
      cases fuel₂ with
      | zero => simp at h2
      | succ g =>
        rw [chunksGo, chunksGo]
        congr 1
        apply ih
        · have : 0 < c := Nat.pos_of_ne_zero hc
          simp only [List.length_drop, List.length_cons]
          simp at h1
          omega
        · have : 0 < c := Nat.pos_of_ne_zero hc
          simp only [List.length_drop, List.length_cons]
          simp at h2
          omega

theorem chunks_nil {α : Type} (c : Nat) : chunks c ([] : List α) = [] := by
  rw [chunks]
  split <;> rfl

theorem chunks_cons {α : Type} {c : Nat} (hc : c ≠ 0) (a : α) (rest : List α) :
    chunks c (a :: rest) = (a :: rest).take c :: chunks c ((a :: rest).drop c) := by
  have hcpos : 0 < c := Nat.pos_of_ne_zero hc
  rw [chunks, chunks]
  simp only [hc, if_false]
  rw [List.length_cons, chunksGo]
  congr 1
  apply chunksGo_fuel_irrel hc
  · simp only [List.length_drop, List.length_cons]
    omega
  · exact Nat.le_refl _

theorem chunks_flatten {α : Type} {c : Nat} (hc : c ≠ 0) (l : List α) :
    (chunks c l).flatten = l := by
  cases l with
  | nil => simp [chunks_nil]
  | cons a rest =>
    rw [chunks_cons hc]
    have hrec := chunks_flatten hc ((a :: rest).drop c)
    simp only [List.flatten_cons, hrec]
    exact List.take_append_drop c (a :: rest)
termination_by l.length
decreasing_by
  have : 0 < c := Nat.pos_of_ne_zero hc
  simp [List.length_drop]
  omega

theorem ceil_div_step {c n : Nat} (hc : 0 < c) (hn : 0 < n) :
    (n - c + c - 1) / c + 1 = (n + c - 1) / c := by
  rcases le_or_lt n c with hle | hlt
  · have h1 : n - c + c - 1 = c - 1 := by omega
    have h2 : n + c - 1 = (n - 1) + c := by omega
    rw [h1, h2, Nat.add_div_right _ hc,
        Nat.div_eq_of_lt (show c - 1 < c by omega),
        Nat.div_eq_of_lt (show n - 1 < c by omega)]
  · have h1 : n - c + c - 1 = (n - c - 1) + c := by omega
    have h2 : n + c - 1 = ((n - c - 1) + c) + c := by omega
    rw [h1, h2, Nat.add_div_right _ hc, Nat.add_div_right _ hc,
        Nat.add_div_right _ hc]

theorem chunks_length {α : Type} {c : Nat} (hc : c ≠ 0) (l : List α) :
    (chunks c l).length = (l.length + c - 1) / c := by
  have hcpos : 0 < c := Nat.pos_of_ne_zero hc
  cases l with
  | nil =>
    simp only [chunks_nil, List.length_nil]
    rw [Nat.div_eq_of_lt (by omega)]
  | cons a rest =>
    rw [chunks_cons hc]
    have hrec := chunks_length hc ((a :: rest).drop c)
    simp only [List.length_cons, hrec, List.length_drop]
    exact ceil_div_step hcpos (Nat.succ_pos _)
termination_by l.length
decreasing_by
  have : 0 < c := Nat.pos_of_ne_zero hc
  simp [List.length_drop]
  omega

theorem chunksGo_mem_length_le {α : Type} {c : Nat} :
    ∀ (fuel : Nat) (l : List α), ∀ b ∈ chunksGo c fuel l, b.length ≤ c := by
  intro fuel
  induction fuel with
  | zero =>
    intro l b hb
    cases l <;> simp [chunksGo] at hb
  | succ f ih =>
    intro l b hb
    cases l with
    | nil => simp [chunksGo] at hb
    | cons a rest =>
      rw [chunksGo, List.mem_cons] at hb
      rcases hb with hb | hb
      · subst hb
        simp [List.length_take]
      · exact ih _ b hb

theorem chunks_mem_length_le {α : Type} {c : Nat} (hc : c ≠ 0) (l : List α) :
    ∀ b ∈ chunks c l, b.length ≤ c := by
  rw [chunks]
  simp only [hc, if_false]
  exact chunksGo_mem_length_le l.length l

/-! ## Properties of the chunk loop -/

/-- If no chunk query raises, the loop upserts every chunk in order,
issues one query per chunk, and adds every chunk's length to the count. -/
theorem runChunks_ok (chunkFail : Nat → Bool) (k : Nat) (st : ChunkRun)
    (bs : List (List DbRow)) (h : ∀ j, j < bs.length → chunkFail (k + j) = false) :
    runChunks chunkFail k st bs =
      ⟨bs.foldl applyChunk st.tx, st.issued + bs.length,
       st.successCount + (bs.map List.length).sum, st.failed⟩ := by
  induction bs generalizing k st with
  | nil => simp [runChunks]
  | cons b rest ih =>
    have h0 : chunkFail k = false := by simpa using h 0 (by simp)
    rw [runChunks, h0]
    simp only [Bool.false_eq_true, if_false]
    rw [ih (k + 1) _ (fun j hj => by
      have hx := h (j + 1) (by simpa using hj)
      simpa [show k + 1 + j = k + (j + 1) by omega] using hx)]
    simp [List.foldl_cons]
    omega

/-- If some chunk query raises, the loop reports failure. -/
theorem runChunks_fail (chunkFail : Nat → Bool) (k : Nat) (st : ChunkRun)
    (bs : List (List DbRow)) (h : ∃ j, j < bs.length ∧ chunkFail (k + j) = true) :
    (runChunks chunkFail k st bs).failed = true := by
  induction bs generalizing k st with
  | nil =>
    obtain ⟨j, hj, _⟩ := h
    simp at hj
  | cons b rest ih =>
    rw [runChunks]
    by_cases h0 : chunkFail k = true
    · simp [h0]
    · simp only [h0, if_false]
      apply ih (k + 1)
      obtain ⟨j, hj, hfail⟩ := h
      cases j with
      | zero => simp at hfail; exact absurd hfail h0
      | succ j' =>
        exact ⟨j', by simpa using hj,
          by simpa [show k + 1 + j' = k + (j' + 1) by omega] using hfail⟩

/-! ## Properties of the upsert statement -/

/-- A value tuple whose business key already has a row: MySQL applies the
update list `call_id = VALUES(call_id)`, which changes nothing, so the
table is exactly as before — no other field of the stored row is touched. -/
theorem upsertRow_dup {table : List DbRow} {r : DbRow}
    (h : table.any (fun x => x.call_id == r.call_id) = true) :
    upsertRow table r = table := by
  rw [upsertRow, if_pos h]
  have hid : ∀ x ∈ table,
      (if x.call_id == r.call_id then { x with call_id := r.call_id } else x) = x := by
    intro x _
    by_cases hx : x.call_id = r.call_id
    · simp only [hx, beq_self_eq_true, if_true]
      cases x
      simp_all
    · simp [hx]
  calc table.map (fun x =>
          if x.call_id == r.call_id then { x with call_id := r.call_id } else x)
      = table.map id := List.map_congr_left hid
    _ = table := List.map_id table

/-- A value tuple with a new business key is appended as a new row. -/
theorem upsertRow_fresh {table : List DbRow} {r : DbRow}
    (h : table.any (fun x => x.call_id == r.call_id) = false) :
    upsertRow table r = table ++ [r] := by
  rw [upsertRow, if_neg (by simp [h])]

/-- What one chunk statement really does: the pre-existing rows are kept
unchanged, in place; the rows appended after them come from the chunk and
carry business keys that no pre-existing row has; and after the statement
every record of the chunk has a row with its business key. -/
theorem applyChunk_decomp (table batch : List DbRow) :
    ∃ s, applyChunk table batch = table ++ s ∧
      (∀ r ∈ s, r ∈ batch) ∧
      (∀ r ∈ s, ∀ x ∈ table, x.call_id ≠ r.call_id) ∧
      (∀ r ∈ batch, ∃ x ∈ applyChunk table batch, x.call_id = r.call_id) := by
  induction batch generalizing table with
  | nil => exact ⟨[], by simp [applyChunk], by simp, by simp, by simp⟩
  | cons r rest ih =>
    by_cases hdup : table.any (fun x => x.call_id == r.call_id) = true
    · have hstep : applyChunk table (r :: rest) = applyChunk table rest := by
        rw [show applyChunk table (r :: rest) = applyChunk (upsertRow table r) rest
              from rfl, upsertRow_dup hdup]
      obtain ⟨s, hs, hmem, hfresh, hkeys⟩ := ih table
      refine ⟨s, by rw [hstep]; exact hs, fun x hx => by simp [hmem x hx],
        hfresh, ?_⟩
      intro q hq
      rw [List.mem_cons] at hq
      rcases hq with rfl | hq
      · obtain ⟨x, hx, hxq⟩ := List.any_eq_true.mp hdup
        refine ⟨x, ?_, by simpa using hxq⟩
        rw [hstep, hs]
        simp [hx]
      · obtain ⟨x, hx, hxq⟩ := hkeys q hq
        exact ⟨x, by rw [hstep]; exact hx, hxq⟩
    · have hfr : table.any (fun x => x.call_id == r.call_id) = false := by
        simpa using hdup
      have hstep : applyChunk table (r :: rest) = applyChunk (table ++ [r]) rest := by
        rw [show applyChunk table (r :: rest) = applyChunk (upsertRow table r) rest
              from rfl, upsertRow_fresh hfr]
      obtain ⟨s, hs, hmem, hfresh, hkeys⟩ := ih (table ++ [r])
      refine ⟨r :: s, ?_, ?_, ?_, ?_⟩
      · rw [hstep, hs]
        simp
      · intro x hx
        rw [List.mem_cons] at hx
        rcases hx with hx | hx
        · simp [hx]
        · simp [hmem x hx]
      · intro q hq x hx
        rw [List.mem_cons] at hq
        rcases hq with rfl | hq
        · have := List.any_eq_false.mp hfr x hx
          simpa using this
        · exact hfresh q hq x (by simp [hx])
      · intro q hq
        rw [List.mem_cons] at hq
        rcases hq with rfl | hq
        · refine ⟨q, ?_, rfl⟩
          rw [hstep, hs]
          simp
        · obtain ⟨x, hx, hxq⟩ := hkeys q hq
          exact ⟨x, by rw [hstep]; exact hx, hxq⟩

/-! ## Properties of the Batch Upsert Engine -/

/-- With no failing chunk query, the engine issues one query per chunk,
applies every chunk in order, counts every record, and reports success. -/
theorem batchUpsert_ok {c : Nat} (hc : c ≠ 0) (chunkFail : Nat → Bool)
    (table : List DbRow) (rows : List JsonRow)
    (h : ∀ k, k < (chunks c rows).length → chunkFail k = false) :
    batchUpsert c chunkFail table rows =
      ⟨((chunks c rows).map (List.map toDbRow)).foldl applyChunk table,
       (chunks c rows).length, rows.length, false⟩ := by
  rw [batchUpsert,
      runChunks_ok chunkFail 0 ⟨table, 0, 0, false⟩ _ (by simpa using h)]
  have hsum : ((((chunks c rows).map (List.map toDbRow)).map List.length).sum)
      = rows.length := by
    have h1 : ((chunks c rows).map (List.map toDbRow)).map List.length
        = (chunks c rows).map List.length := by
      rw [List.map_map]
      exact List.map_congr_left (fun b _ => by simp)
    rw [h1, ← List.length_flatten, chunks_flatten hc]
  have hsum2 : (List.map (List.length ∘ List.map toDbRow) (chunks c rows)).sum
      = rows.length := by
    rw [← List.map_map]
    exact hsum
  simp [hsum, hsum2]

/-- If some chunk query in range raises, the engine reports failure. -/
theorem batchUpsert_fail {c : Nat} (chunkFail : Nat → Bool)
    (table : List DbRow) (rows : List JsonRow)
    (h : ∃ k, k < (chunks c rows).length ∧ chunkFail k = true) :
    (batchUpsert c chunkFail table rows).failed = true := by
  rw [batchUpsert]
  exact runChunks_fail chunkFail 0 _ _ (by simpa using h)

end Ingest

namespace FireAck

/-- An unseen key is marked and reported `fresh`. -/
theorem checkAndMark_nil (key : String) (now : Nat) :
    checkAndMark ⟨[]⟩ key now = (true, ⟨[(key, now)]⟩) := by
  simp [checkAndMark, List.lookup]

/-- A key marked inside the TTL window is reported `duplicate` and the
cache is unchanged. -/
theorem checkAndMark_seen (key : String) {t now : Nat} (h : now < t + TTLms) :
    checkAndMark ⟨[(key, t)]⟩ key now = (false, ⟨[(key, t)]⟩) := by
  simp [checkAndMark, List.lookup, h]

/-- One atomic action by either request preserves the invariant, provided
the two arrival times lie within one TTL window of each other. -/
theorem inv_step {key : String} {time1 time2 : Nat}
    (hw1 : time1 < time2 + TTLms) (hw2 : time2 < time1 + TTLms)
    {s : Sys} (hs : inv key time1 time2 s) (i : Bool) :
    inv key time1 time2 (step key s i) := by
  have hT : 0 < TTLms := by norm_num [TTLms]
  obtain ⟨⟨entries⟩, ⟨pc1, tm1, fr1, rs1⟩, ⟨pc2, tm2, fr2, rs2⟩, pcount⟩ := s
  simp only [inv] at hs ⊢
  obtain ⟨ht1, ht2, hd1, hd2, hcase⟩ := hs
  subst ht1
  subst ht2
  rcases hcase with ⟨he, hpc1, hpc2, hfr1, hfr2, hpc⟩ | ⟨t, htor, he, hmk⟩
  · -- the key is unseen and neither request has acted
    subst he
    subst hpc1
    subst hpc2
    subst hfr1
    subst hfr2
    subst hpc
    cases i
    · -- request 2 checks: fresh, becomes the marker
      rw [show step key ⟨⟨[]⟩, ⟨Phase.check, tm1, false, rs1⟩,
            ⟨Phase.check, tm2, false, rs2⟩, 0⟩ false
          = ⟨⟨[(key, tm2)]⟩, ⟨Phase.check, tm1, false, rs1⟩,
            ⟨Phase.persist, tm2, true, rs2⟩, 0⟩ by
        simp [step, threadStep, checkAndMark_nil]]
      refine ⟨rfl, rfl, by simp, by simp,
        Or.inr ⟨tm2, Or.inr rfl, rfl,
          Or.inr ⟨⟨rfl, Or.inl ⟨rfl, rfl⟩⟩, rfl, by simp⟩⟩⟩
    · -- request 1 checks: fresh, becomes the marker
      rw [show step key ⟨⟨[]⟩, ⟨Phase.check, tm1, false, rs1⟩,
            ⟨Phase.check, tm2, false, rs2⟩, 0⟩ true
          = ⟨⟨[(key, tm1)]⟩, ⟨Phase.persist, tm1, true, rs1⟩,
            ⟨Phase.check, tm2, false, rs2⟩, 0⟩ by
        simp [step, threadStep, checkAndMark_nil]]
      refine ⟨rfl, rfl, by simp, by simp,
        Or.inr ⟨tm1, Or.inl rfl, rfl,
          Or.inl ⟨⟨rfl, Or.inl ⟨rfl, rfl⟩⟩, rfl, by simp⟩⟩⟩
  · -- the key is marked at time t, one marker and one follower
    subst he
    have hlt1 : tm1 < t + TTLms := by rcases htor with rfl | rfl <;> omega
    have hlt2 : tm2 < t + TTLms := by rcases htor with rfl | rfl <;> omega
    rcases hmk with ⟨⟨hfr, hacct⟩, hfo2, hfo2pc⟩ | ⟨⟨hfr, hacct⟩, hfo1, hfo1pc⟩
    · -- request 1 is the marker
      subst hfr
      subst hfo2
      cases i
      · -- the follower (request 2) steps
        cases pc2 with
        | check =>
          rw [show step key ⟨⟨[(key, t)]⟩, ⟨pc1, tm1, true, rs1⟩,
                ⟨Phase.check, tm2, false, rs2⟩, pcount⟩ false
              = ⟨⟨[(key, t)]⟩, ⟨pc1, tm1, true, rs1⟩,
                ⟨Phase.respond, tm2, false, rs2⟩, pcount⟩ by
            simp [step, threadStep, checkAndMark_seen key hlt2]]
          exact ⟨rfl, rfl, hd1, by simp,
            Or.inr ⟨t, htor, rfl, Or.inl ⟨⟨rfl, hacct⟩, rfl, by simp⟩⟩⟩
        | persist => exact absurd rfl hfo2pc
        | respond =>
          rw [show step key ⟨⟨[(key, t)]⟩, ⟨pc1, tm1, true, rs1⟩,
                ⟨Phase.respond, tm2, false, rs2⟩, pcount⟩ false
              = ⟨⟨[(key, t)]⟩, ⟨pc1, tm1, true, rs1⟩,
                ⟨Phase.done, tm2, false, some "success"⟩, pcount⟩ by
            simp [step, threadStep]]
          exact ⟨rfl, rfl, hd1, by simp,
            Or.inr ⟨t, htor, rfl, Or.inl ⟨⟨rfl, hacct⟩, rfl, by simp⟩⟩⟩
        | done =>
          rw [show step key ⟨⟨[(key, t)]⟩, ⟨pc1, tm1, true, rs1⟩,
                ⟨Phase.done, tm2, false, rs2⟩, pcount⟩ false
              = ⟨⟨[(key, t)]⟩, ⟨pc1, tm1, true, rs1⟩,
                ⟨Phase.done, tm2, false, rs2⟩, pcount⟩ by
            simp [step, threadStep]]
          exact ⟨rfl, rfl, hd1, hd2,
            Or.inr ⟨t, htor, rfl, Or.inl ⟨⟨rfl, hacct⟩, rfl, by simp [hfo2pc]⟩⟩⟩
      · -- the marker (request 1) steps
        rcases hacct with ⟨hpc1, hp0⟩ | ⟨hpc1, hp1⟩
        · -- marker at the persistence step: executes it
          subst hpc1
          subst hp0
          rw [show step key ⟨⟨[(key, t)]⟩, ⟨Phase.persist, tm1, true, rs1⟩,
                ⟨pc2, tm2, false, rs2⟩, 0⟩ true
              = ⟨⟨[(key, t)]⟩, ⟨Phase.respond, tm1, true, rs1⟩,
                ⟨pc2, tm2, false, rs2⟩, 1⟩ by
            simp [step, threadStep]]
          exact ⟨rfl, rfl, by simp, hd2,
            Or.inr ⟨t, htor, rfl, Or.inl ⟨⟨rfl, Or.inr ⟨Or.inl rfl, rfl⟩⟩,
              rfl, hfo2pc⟩⟩⟩
        · -- marker responding or finished
          subst hp1
          rcases hpc1 with hpc1 | hpc1
          · subst hpc1
            rw [show step key ⟨⟨[(key, t)]⟩, ⟨Phase.respond, tm1, true, rs1⟩,
                  ⟨pc2, tm2, false, rs2⟩, 1⟩ true
                = ⟨⟨[(key, t)]⟩, ⟨Phase.done, tm1, true, some "success"⟩,
                  ⟨pc2, tm2, false, rs2⟩, 1⟩ by
              simp [step, threadStep]]
            exact ⟨rfl, rfl, by simp, hd2,
              Or.inr ⟨t, htor, rfl, Or.inl ⟨⟨rfl, Or.inr ⟨Or.inr rfl, rfl⟩⟩,
                rfl, hfo2pc⟩⟩⟩
          · subst hpc1
            rw [show step key ⟨⟨[(key, t)]⟩, ⟨Phase.done, tm1, true, rs1⟩,
                  ⟨pc2, tm2, false, rs2⟩, 1⟩ true
                = ⟨⟨[(key, t)]⟩, ⟨Phase.done, tm1, true, rs1⟩,
                  ⟨pc2, tm2, false, rs2⟩, 1⟩ by
              simp [step, threadStep]]
            exact ⟨rfl, rfl, hd1, hd2,
              Or.inr ⟨t, htor, rfl, Or.inl ⟨⟨rfl, Or.inr ⟨Or.inr rfl, rfl⟩⟩,
                rfl, hfo2pc⟩⟩⟩
    · -- request 2 is the marker (mirror image)
      subst hfr
      subst hfo1
      cases i
      · -- the marker (request 2) steps
        rcases hacct with ⟨hpc2, hp0⟩ | ⟨hpc2, hp1⟩
        · subst hpc2
          subst hp0
          rw [show step key ⟨⟨[(key, t)]⟩, ⟨pc1, tm1, false, rs1⟩,
                ⟨Phase.persist, tm2, true, rs2⟩, 0⟩ false
              = ⟨⟨[(key, t)]⟩, ⟨pc1, tm1, false, rs1⟩,
                ⟨Phase.respond, tm2, true, rs2⟩, 1⟩ by
            simp [step, threadStep]]
          exact ⟨rfl, rfl, hd1, by simp,
            Or.inr ⟨t, htor, rfl, Or.inr ⟨⟨rfl, Or.inr ⟨Or.inl rfl, rfl⟩⟩,
              rfl, hfo1pc⟩⟩⟩
        · subst hp1
          rcases hpc2 with hpc2 | hpc2
          · subst hpc2
            rw [show step key ⟨⟨[(key, t)]⟩, ⟨pc1, tm1, false, rs1⟩,
                  ⟨Phase.respond, tm2, true, rs2⟩, 1⟩ false
                = ⟨⟨[(key, t)]⟩, ⟨pc1, tm1, false, rs1⟩,
                  ⟨Phase.done, tm2, true, some "success"⟩, 1⟩ by
              simp [step, threadStep]]
            exact ⟨rfl, rfl, hd1, by simp,
              Or.inr ⟨t, htor, rfl, Or.inr ⟨⟨rfl, Or.inr ⟨Or.inr rfl, rfl⟩⟩,
                rfl, hfo1pc⟩⟩⟩
          · subst hpc2
            rw [show step key ⟨⟨[(key, t)]⟩, ⟨pc1, tm1, false, rs1⟩,
                  ⟨Phase.done, tm2, true, rs2⟩, 1⟩ false
                = ⟨⟨[(key, t)]⟩, ⟨pc1, tm1, false, rs1⟩,
                  ⟨Phase.done, tm2, true, rs2⟩, 1⟩ by
              simp [step, threadStep]]
            exact ⟨rfl, rfl, hd1, hd2,
              Or.inr ⟨t, htor, rfl, Or.inr ⟨⟨rfl, Or.inr ⟨Or.inr rfl, rfl⟩⟩,
                rfl, hfo1pc⟩⟩⟩
      · -- the follower (request 1) steps
        cases pc1 with
        | check =>
          rw [show step key ⟨⟨[(key, t)]⟩, ⟨Phase.check, tm1, false, rs1⟩,
                ⟨pc2, tm2, true, rs2⟩, pcount⟩ true
              = ⟨⟨[(key, t)]⟩, ⟨Phase.respond, tm1, false, rs1⟩,
                ⟨pc2, tm2, true, rs2⟩, pcount⟩ by
            simp [step, threadStep, checkAndMark_seen key hlt1]]
          exact ⟨rfl, rfl, by simp, hd2,
            Or.inr ⟨t, htor, rfl, Or.inr ⟨⟨rfl, hacct⟩, rfl, by simp⟩⟩⟩
        | persist => exact absurd rfl hfo1pc
        | respond =>
          rw [show step key ⟨⟨[(key, t)]⟩, ⟨Phase.respond, tm1, false, rs1⟩,
                ⟨pc2, tm2, true, rs2⟩, pcount⟩ true
              = ⟨⟨[(key, t)]⟩, ⟨Phase.done, tm1, false, some "success"⟩,
                ⟨pc2, tm2, true, rs2⟩, pcount⟩ by
            simp [step, threadStep]]
          exact ⟨rfl, rfl, by simp, hd2,
            Or.inr ⟨t, htor, rfl, Or.inr ⟨⟨rfl, hacct⟩, rfl, by simp⟩⟩⟩
        | done =>
          rw [show step key ⟨⟨[(key, t)]⟩, ⟨Phase.done, tm1, false, rs1⟩,
                ⟨pc2, tm2, true, rs2⟩, pcount⟩ true
              = ⟨⟨[(key, t)]⟩, ⟨Phase.done, tm1, false, rs1⟩,
                ⟨pc2, tm2, true, rs2⟩, pcount⟩ by
            simp [step, threadStep]]
          exact ⟨rfl, rfl, hd1, hd2,
            Or.inr ⟨t, htor, rfl, Or.inr ⟨⟨rfl, hacct⟩, rfl, by simp [hfo1pc]⟩⟩⟩

/-- The invariant is preserved along every schedule. -/
theorem inv_run_from {key : String} {time1 time2 : Nat}
    (hw1 : time1 < time2 + TTLms) (hw2 : time2 < time1 + TTLms)
    (sched : List Bool) :
    ∀ s : Sys, inv key time1 time2 s → inv key time1 time2 (run key s sched) := by
  induction sched with
  | nil => exact fun s hs => hs
  | cons i r ih =>
    intro s hs
    show inv key time1 time2 (run key (step key s i) r)
    exact ih _ (inv_step hw1 hw2 hs i)

/-- The invariant holds along every interleaving from the initial state. -/
theorem inv_run {key : String} {time1 time2 : Nat}
    (hw1 : time1 < time2 + TTLms) (hw2 : time2 < time1 + TTLms)
    (sched : List Bool) :
    inv key time1 time2 (run key (initSys time1 time2) sched) := by
  apply inv_run_from hw1 hw2
  exact ⟨rfl, rfl, by simp [initSys], by simp [initSys],
    Or.inl ⟨rfl, rfl, rfl, rfl, rfl, rfl⟩⟩

end FireAck

namespace Jwt

/-- Base64 alphabet characters are never dots. -/
theorem b64char_ne_dot (n : Nat) : b64char n ≠ '.' := by
  have halpha : ∀ ch ∈ base64Alphabet, ch ≠ '.' := by decide
  rw [b64char, List.getD_eq_getElem?_getD]
  cases h : base64Alphabet[n]? with
  | none => simp
  | some ch =>
    simp only [Option.getD_some]
    exact halpha ch (List.getElem?_mem h)

/-- Every character `btoa` emits is an alphabet character or padding. -/
theorem mem_btoaChars (bs : List Nat) :
    ∀ ch ∈ btoaChars bs, ch = '=' ∨ ∃ n, ch = b64char n := by
  induction bs using btoaChars.induct with
  | case1 => simp [btoaChars]
  | case2 a =>
    intro ch hch
    simp only [btoaChars, List.mem_cons, List.mem_singleton] at hch
    rcases hch with rfl | rfl | rfl | h
    · exact Or.inr ⟨_, rfl⟩
    · exact Or.inr ⟨_, rfl⟩
    · exact Or.inl rfl
    · simp at h
      exact Or.inl h
  | case3 a b =>
    intro ch hch
    simp only [btoaChars, List.mem_cons, List.mem_singleton] at hch
    rcases hch with rfl | rfl | rfl | h
    · exact Or.inr ⟨_, rfl⟩
    · exact Or.inr ⟨_, rfl⟩
    · exact Or.inr ⟨_, rfl⟩
    · simp at h
      exact Or.inl h
  | case4 a b c rest ih =>
    intro ch hch
    simp only [btoaChars, List.mem_cons] at hch
    rcases hch with rfl | rfl | rfl | rfl | h
    · exact Or.inr ⟨_, rfl⟩
    · exact Or.inr ⟨_, rfl⟩
    · exact Or.inr ⟨_, rfl⟩
    · exact Or.inr ⟨_, rfl⟩
    · exact ih ch h

/-- `base64UrlEncode` never emits a dot. -/
theorem base64UrlEncode_ne_dot (bs : List Nat) :
    ∀ ch ∈ base64UrlEncode bs, ch ≠ '.' := by
  intro ch hch
  rw [base64UrlEncode, List.mem_map] at hch
  obtain ⟨ch', hmem, rfl⟩ := hch
  rw [List.mem_filter] at hmem
  obtain ⟨hbtoa, hne⟩ := hmem
  rcases mem_btoaChars bs ch' hbtoa with rfl | ⟨n, rfl⟩
  · simp at hne
  · have := b64char_ne_dot n
    by_cases h1 : b64char n = '+'
    · simp [h1]
    · by_cases h2 : b64char n = '/'
      · simp [h1, h2]
      · simpa [h1, h2] using this

/-- Splitting at the first dot of `a ++ "." ++ r` for a dot-free `a`. -/
theorem splitOnDot_append (a r : List Char) (h : ∀ ch ∈ a, ch ≠ '.') :
    splitOnDot (a ++ '.' :: r) = a :: splitOnDot r := by
  induction a with
  | nil => simp [splitOnDot]
  | cons ch a' ih =>
    have hch : ch ≠ '.' := h ch (by simp)
    rw [List.cons_append, splitOnDot, if_neg hch,
        ih (fun x hx => h x (by simp [hx]))]

/-- A dot-free string splits into itself alone. -/
theorem splitOnDot_nodot (a : List Char) (h : ∀ ch ∈ a, ch ≠ '.') :
    splitOnDot a = [a] := by
  induction a with
  | nil => rfl
  | cons ch a' ih =>
    have hch : ch ≠ '.' := h ch (by simp)
    rw [splitOnDot, if_neg hch, ih (fun x hx => h x (by simp [hx]))]

/-- `atob` of a string of alphabet characters with length divisible by four
succeeds and yields three bytes per four characters. -/
theorem atobBytes_length (l : List Char)
    (h : ∀ ch ∈ l, (b64Index ch).isSome = true) (hlen : l.length % 4 = 0) :
    ∃ bs, atobBytes l = some bs ∧ bs.length = 3 * (l.length / 4) := by
  induction l using atobBytes.induct with
  | case1 => exact ⟨[], rfl, rfl⟩
  | case2 c1 c2 => simp at hlen
  | case3 c1 c2 c3 => simp at hlen
  | case4 c1 c2 c3 c4 rest ih =>
    obtain ⟨n1, hn1⟩ := Option.isSome_iff_exists.mp (h c1 (by simp))
    obtain ⟨n2, hn2⟩ := Option.isSome_iff_exists.mp (h c2 (by simp))
    obtain ⟨n3, hn3⟩ := Option.isSome_iff_exists.mp (h c3 (by simp))
    obtain ⟨n4, hn4⟩ := Option.isSome_iff_exists.mp (h c4 (by simp))
    have hrest : rest.length % 4 = 0 := by
      simp only [List.length_cons] at hlen
      omega
    obtain ⟨bs, hbs, hbslen⟩ :=
      ih (fun ch hch => h ch (by simp [hch])) hrest
    refine ⟨(n1 * 4 + n2 / 16) :: (n2 % 16 * 16 + n3 / 4) :: (n3 % 4 * 64 + n4) :: bs, ?_, ?_⟩
    · rw [atobBytes, hn1, hn2, hn3, hn4, hbs]
      rfl
    · simp only [List.length_cons, hbslen]
      omega
  | case5 c => simp at hlen

/-- Both hex digits of a byte index into the base64 alphabet. -/
theorem hexChar_b64Index (n : Nat) (h : n < 16) : (b64Index (hexChar n)).isSome = true := by
  revert h
  revert n
  decide

/-- Hex digits are never dots. -/
theorem hexChar_ne_dot (n : Nat) (h : n < 16) : hexChar n ≠ '.' := by
  revert h
  revert n
  decide

/-- The hex rendering of a byte list is two characters per byte. -/
theorem hexFlatten_length (l : List Nat) :
    ((l.map hexByte).flatten).length = 2 * l.length := by
  induction l with
  | nil => rfl
  | cons b rest ih =>
    simp only [List.map_cons, List.flatten_cons, List.length_append, ih,
      List.length_cons, hexByte, List.length_cons, List.length_nil]
    omega

/-- Every character of the hex rendering of genuine bytes is a non-dot
alphabet character. -/
theorem hexFlatten_props {l : List Nat} (h : ∀ b ∈ l, b < 256) :
    ∀ ch ∈ (l.map hexByte).flatten,
      (b64Index ch).isSome = true ∧ ch ≠ '.' := by
  intro ch hch
  rw [List.mem_flatten] at hch
  obtain ⟨piece, hpiece, hchin⟩ := hch
  rw [List.mem_map] at hpiece
  obtain ⟨b, hb, rfl⟩ := hpiece
  have hb256 : b < 256 := h b hb
  rw [hexByte] at hchin
  simp only [List.mem_cons, List.mem_singleton] at hchin
  rcases hchin with rfl | rfl | h'
  · exact ⟨hexChar_b64Index _ (by omega), hexChar_ne_dot _ (by omega)⟩
  · exact ⟨hexChar_b64Index _ (by omega), hexChar_ne_dot _ (by omega)⟩
  · simp at h'

/-- `verifyJWT` rejects any token of the shape `generateJWT` emits: the
signature part renders the 32 MAC bytes as 64 hex characters, which `atob`
decodes into 48 bytes, never equal to the recomputed 32-byte MAC. -/
theorem verify_reject_parts (hmac : List Nat → List Nat → List Nat)
    (parseExp : List Nat → Nat) (secret : List Nat) (now : Nat)
    (eh ep sig : List Char)
    (heh : ∀ ch ∈ eh, ch ≠ '.') (hep : ∀ ch ∈ ep, ch ≠ '.')
    (hsig : ∀ ch ∈ sig, ch ≠ '.')
    (hsome : ∀ ch ∈ sig, (b64Index ch).isSome = true)
    (hlen4 : sig.length % 4 = 0)
    (hne : 3 * (sig.length / 4) ≠
      (hmac secret ((eh ++ '.' :: ep).map Char.toNat)).length) :
    verifyJWT hmac parseExp (eh ++ ('.' :: ep) ++ ('.' :: sig)) secret now
      = Except.error "Invalid token" := by
  have htok : eh ++ ('.' :: ep) ++ ('.' :: sig) = eh ++ '.' :: (ep ++ '.' :: sig) := by
    simp
  have hsplit : splitOnDot (eh ++ '.' :: (ep ++ '.' :: sig)) = [eh, ep, sig] := by
    rw [splitOnDot_append _ _ heh, splitOnDot_append _ _ hep,
        splitOnDot_nodot _ hsig]
  obtain ⟨bs, hbs, hbslen⟩ := atobBytes_length sig hsome hlen4
  rw [htok, verifyJWT, hsplit]
  simp only [hbs]
  rw [if_neg]
  intro hcontra
  apply hne
  rw [← hbslen, hcontra]

end Jwt

namespace Ingest

/-! ## Properties of the spreadsheet row projection -/

/-- Setting a key of an object that already has it leaves the key set
unchanged. -/
theorem assocSet_keys_of_mem {acc : JsonRow} {k : String} (v : String)
    (h : acc.any (fun p => p.1 == k) = true) :
    (assocSet acc k v).map Prod.fst = acc.map Prod.fst := by
  rw [assocSet, if_pos h, List.map_map]
  apply List.map_congr_left
  intro p _
  by_cases hp : p.1 = k
  · simp [hp]
  · simp [hp]

/-- Setting a fresh key appends it to the key set. -/
theorem assocSet_keys_of_not_mem {acc : JsonRow} {k : String} (v : String)
    (h : acc.any (fun p => p.1 == k) = false) :
    (assocSet acc k v).map Prod.fst = acc.map Prod.fst ++ [k] := by
  rw [assocSet, if_neg (by rw [h]; exact Bool.false_ne_true)]
  simp

/-- The key set after a property assignment. -/
theorem assocSet_keys (acc : JsonRow) (k v m : String) :
    m ∈ (assocSet acc k v).map Prod.fst ↔ m = k ∨ m ∈ acc.map Prod.fst := by
  by_cases h : acc.any (fun p => p.1 == k) = true
  · rw [assocSet_keys_of_mem v h]
    constructor
    · exact Or.inr
    · rintro (rfl | hm)
      · obtain ⟨p, hp, hpk⟩ := List.any_eq_true.mp h
        exact List.mem_map.mpr ⟨p, hp, by simpa using hpk⟩
      · exact hm
  · rw [assocSet_keys_of_not_mem v (by
      cases hcv : acc.any (fun p => p.1 == k) with
      | false => rfl
      | true => exact absurd hcv h)]
    simp [or_comm]

/-- The canonical fields present in a projected record are exactly those
with a present cell under an in-range, mapped header: holes, positions past
the end of the row, blank or out-of-range headers, and unmapped headers
contribute nothing. -/
theorem projectRowAux_keys (headers : List (Option String)) :
    ∀ (row : List (Option String)) (i : Nat) (acc : JsonRow) (m : String),
      m ∈ (projectRowAux headers i row acc).map Prod.fst ↔
        (m ∈ acc.map Prod.fst ∨
          ∃ j v h, row[j]? = some (some v) ∧ headers[i + j]? = some (some h) ∧
            fieldMappingLookup h = some m) := by
  intro row
  induction row with
  | nil =>
    intro i acc m
    simp [projectRowAux]
  | cons cell rest ih =>
    intro i acc m
    cases cell with
    | none =>
      rw [show projectRowAux headers i (none :: rest) acc
            = projectRowAux headers (i + 1) rest acc from rfl]
      rw [ih (i + 1) acc m]
      constructor
      · rintro (hacc | ⟨j, v, h, hj, hh, hm⟩)
        · exact Or.inl hacc
        · refine Or.inr ⟨j + 1, v, h, by simpa using hj, ?_, hm⟩
          rw [show i + (j + 1) = i + 1 + j by omega]
          exact hh
      · rintro (hacc | ⟨j, v, h, hj, hh, hm⟩)
        · exact Or.inl hacc
        · cases j with
          | zero => simp at hj
          | succ j' =>
            refine Or.inr ⟨j', v, h, by simpa using hj, ?_, hm⟩
            rw [show i + 1 + j' = i + (j' + 1) by omega]
            exact hh
    | some v0 =>
      cases hh0 : headers[i]? with
      | none =>
        rw [show projectRowAux headers i (some v0 :: rest) acc
              = projectRowAux headers (i + 1) rest
                  (match headers[i]? with
                   | some (some h) =>
                     match fieldMappingLookup h with
                     | some m => assocSet acc m (jsCoerce v0)
                     | none => acc
                   | _ => acc) from rfl]
        rw [hh0]
        rw [ih (i + 1) acc m]
        constructor
        · rintro (hacc | ⟨j, v, h, hj, hh, hm⟩)
          · exact Or.inl hacc
          · refine Or.inr ⟨j + 1, v, h, by simpa using hj, ?_, hm⟩
            rw [show i + (j + 1) = i + 1 + j by omega]
            exact hh
        · rintro (hacc | ⟨j, v, h, hj, hh, hm⟩)
          · exact Or.inl hacc
          · cases j with
            | zero =>
              rw [show i + 0 = i by omega, hh0] at hh
              simp at hh
            | succ j' =>
              refine Or.inr ⟨j', v, h, by simpa using hj, ?_, hm⟩
              rw [show i + 1 + j' = i + (j' + 1) by omega]
              exact hh
      | some o =>
        cases o with
        | none =>
          rw [show projectRowAux headers i (some v0 :: rest) acc
                = projectRowAux headers (i + 1) rest
                    (match headers[i]? with
                     | some (some h) =>
                       match fieldMappingLookup h with
                       | some m => assocSet acc m (jsCoerce v0)
                       | none => acc
                     | _ => acc) from rfl]
          rw [hh0]
          rw [ih (i + 1) acc m]
          constructor
          · rintro (hacc | ⟨j, v, h, hj, hh, hm⟩)
            · exact Or.inl hacc
            · refine Or.inr ⟨j + 1, v, h, by simpa using hj, ?_, hm⟩
              rw [show i + (j + 1) = i + 1 + j by omega]
              exact hh
          · rintro (hacc | ⟨j, v, h, hj, hh, hm⟩)
            · exact Or.inl hacc
            · cases j with
              | zero =>
                rw [show i + 0 = i by omega, hh0] at hh
                simp at hh
              | succ j' =>
                refine Or.inr ⟨j', v, h, by simpa using hj, ?_, hm⟩
                rw [show i + 1 + j' = i + (j' + 1) by omega]
                exact hh
        | some h0 =>
          cases hl0 : fieldMappingLookup h0 with
          | none =>
            rw [show projectRowAux headers i (some v0 :: rest) acc
                  = projectRowAux headers (i + 1) rest
                      (match headers[i]? with
                       | some (some h) =>
                         match fieldMappingLookup h with
                         | some m => assocSet acc m (jsCoerce v0)
                         | none => acc
                       | _ => acc) from rfl]
            rw [hh0]
            simp only [hl0]
            rw [ih (i + 1) acc m]
            constructor
            · rintro (hacc | ⟨j, v, h, hj, hh, hm⟩)
              · exact Or.inl hacc
              · refine Or.inr ⟨j + 1, v, h, by simpa using hj, ?_, hm⟩
                rw [show i + (j + 1) = i + 1 + j by omega]
                exact hh
            · rintro (hacc | ⟨j, v, h, hj, hh, hm⟩)
              · exact Or.inl hacc
              · cases j with
                | zero =>
                  rw [show i + 0 = i by omega, hh0] at hh
                  obtain rfl : h0 = h := by simpa using hh
                  rw [hl0] at hm
                  simp at hm
                | succ j' =>
                  refine Or.inr ⟨j', v, h, by simpa using hj, ?_, hm⟩
                  rw [show i + 1 + j' = i + (j' + 1) by omega]
                  exact hh
          | some m0 =>
            rw [show projectRowAux headers i (some v0 :: rest) acc
                  = projectRowAux headers (i + 1) rest
                      (match headers[i]? with
                       | some (some h) =>
                         match fieldMappingLookup h with
                         | some m => assocSet acc m (jsCoerce v0)
                         | none => acc
                       | _ => acc) from rfl]
            rw [hh0]
            simp only [hl0]
            rw [ih (i + 1) (assocSet acc m0 (jsCoerce v0)) m]
            rw [assocSet_keys]
            constructor
            · rintro ((rfl | hacc) | ⟨j, v, h, hj, hh, hm⟩)
              · refine Or.inr ⟨0, v0, h0, by simp, ?_, hl0⟩
                rw [show i + 0 = i by omega]
                exact hh0
              · exact Or.inl hacc
              · refine Or.inr ⟨j + 1, v, h, by simpa using hj, ?_, hm⟩
                rw [show i + (j + 1) = i + 1 + j by omega]
                exact hh
            · rintro (hacc | ⟨j, v, h, hj, hh, hm⟩)
              · exact Or.inl (Or.inr hacc)
              · cases j with
                | zero =>
                  rw [show i + 0 = i by omega, hh0] at hh
                  obtain rfl : h0 = h := by simpa using hh
                  rw [hl0] at hm
                  obtain rfl : m = m0 := by simpa using hm.symm
                  exact Or.inl (Or.inl rfl)
                | succ j' =>
                  refine Or.inr ⟨j', v, h, by simpa using hj, ?_, hm⟩
                  rw [show i + 1 + j' = i + (j' + 1) by omega]
                  exact hh

/-- The canonical fields of a projected data row: exactly those whose
localized header stands (in range) over a present cell. -/
theorem projectRow_keys (headers row : List (Option String)) (m : String) :
    m ∈ (projectRow headers row).map Prod.fst ↔
      ∃ (j : Nat) (v h : String), row[j]? = some (some v) ∧
        headers[j]? = some (some h) ∧ fieldMappingLookup h = some m := by
  have h := projectRowAux_keys headers row 0 [] m
  simpa [projectRow] using h

end Ingest

namespace Ingest

/-! ## Behaviour of the endpoint around the database phase -/

/-- A non-empty, fully validated batch reaches the database phase. -/
theorem importData_valid_rows (chunkFail logFail : Nat → Bool)
    (rows : List JsonRow) (store : Store)
    (hne : rows ≠ []) (hmiss : findMissing rows = none) :
    importData chunkFail logFail (.rows rows) store
      = dbPhase chunkFail logFail rows store := by
  cases rows with
  | nil => exact absurd rfl hne
  | cons a rest =>
    simp only [importData, List.isEmpty_cons, Bool.false_eq_true, if_false, hmiss]

/-- A spreadsheet whose header row carries every required localized name
passes the header check and reaches the database phase with the projected
data rows (whether or not the projected records are complete). -/
theorem importDataXlsx_valid_header (chunkFail logFail : Nat → Bool)
    (headerRow : List (Option String)) (dataRows : List (List (Option String)))
    (store : Store)
    (hheader : ∀ g ∈ requiredLocalized, headerRow.contains (some g) = true) :
    importDataXlsx chunkFail logFail (some (headerRow :: dataRows)) store
      = dbPhase chunkFail logFail (dataRows.map (projectRow headerRow)) store := by
  have hfind : requiredLocalized.find?
      (fun g => !(headerRow.contains (some g))) = none :=
    List.find?_eq_none.mpr (fun g hg => by rw [hheader g hg]; simp)
  simp only [importDataXlsx, hfind]

/-- The database phase when some chunk query raises: rollback, one
failure-log attempt, 500. -/
theorem dbPhase_run_failed (chunkFail logFail : Nat → Bool)
    (rows : List JsonRow) (store : Store)
    (h : (batchUpsert 1000 chunkFail store.table rows).failed = true) :
    dbPhase chunkFail logFail rows store =
      if logFail 0 then
        ⟨⟨"Internal Server Error", 500⟩, store,
         ⟨true, true, (batchUpsert 1000 chunkFail store.table rows).issued,
          false, true⟩⟩
      else
        ⟨⟨"Failed to import data", 500⟩,
         { store with logs := store.logs ++ [failedLog] },
         ⟨true, true, (batchUpsert 1000 chunkFail store.table rows).issued,
          false, true⟩⟩ := by
  simp only [dbPhase, h, if_true]

/-- The database phase when every chunk query succeeds: commit, then the
success log (and, if that raises, the catch handler's rollback and
failure-log attempt decide the response). -/
theorem dbPhase_run_ok (chunkFail logFail : Nat → Bool)
    (rows : List JsonRow) (store : Store)
    (h : (batchUpsert 1000 chunkFail store.table rows).failed = false) :
    dbPhase chunkFail logFail rows store =
      if logFail 0 then
        if logFail 1 then
          ⟨⟨"Internal Server Error", 500⟩,
           { store with table := (batchUpsert 1000 chunkFail store.table rows).tx },
           ⟨true, true, (batchUpsert 1000 chunkFail store.table rows).issued,
            true, true⟩⟩
        else
          ⟨⟨"Failed to import data", 500⟩,
           ⟨(batchUpsert 1000 chunkFail store.table rows).tx,
            store.logs ++ [failedLog]⟩,
           ⟨true, true, (batchUpsert 1000 chunkFail store.table rows).issued,
            true, true⟩⟩
      else
        ⟨⟨"Successfully imported "
            ++ toString (batchUpsert 1000 chunkFail store.table rows).successCount
            ++ " rows", 200⟩,
         ⟨(batchUpsert 1000 chunkFail store.table rows).tx,
          store.logs ++ [successLog (batchUpsert 1000 chunkFail store.table rows).successCount]⟩,
         ⟨true, true, (batchUpsert 1000 chunkFail store.table rows).issued,
          true, false⟩⟩ := by
  simp only [dbPhase, h, Bool.false_eq_true, if_false]

end Ingest

/-! # Claims -/

open Ingest FireAck Jwt

/-- C1: for every structured or spreadsheet import whose record set spans
multiple chunks, all chunk writes execute inside a single transaction: if
any chunk query fails, the engine rolls back, no chunk's writes (including
chunks that succeeded before the failing one) remain visible in the
committed store, and the caller receives a failure response (status 500),
not a partial success count.  The first conjunct block covers the
structured (JSON) endpoint on a validated multi-chunk batch; the second
covers the spreadsheet endpoint on a header-validated sheet whose
projected data rows span multiple chunks (the projected records need not
be complete). -/
theorem C1_chunk_failure_rolls_back_all
    (rows : List JsonRow) (headerRow : List (Option String))
    (dataRows : List (List (Option String))) (storeJ storeX : Store)
    (chunkFailJ logFailJ chunkFailX logFailX : Nat → Bool)
    (hvalid : ∀ r ∈ rows, ∀ f ∈ requiredFields, hasKey r f = true)
    (hmultiJ : 1 < (chunks 1000 rows).length)
    (hfailJ : ∃ k, k < (chunks 1000 rows).length ∧ chunkFailJ k = true)
    (hheader : ∀ g ∈ requiredLocalized, headerRow.contains (some g) = true)
    (hmultiX : 1 < (chunks 1000 (dataRows.map (projectRow headerRow))).length)
    (hfailX : ∃ k, k < (chunks 1000 (dataRows.map (projectRow headerRow))).length ∧
      chunkFailX k = true) :
    ((importData chunkFailJ logFailJ (.rows rows) storeJ).store.table = storeJ.table ∧
     (importData chunkFailJ logFailJ (.rows rows) storeJ).trace.beganTx = true ∧
     (importData chunkFailJ logFailJ (.rows rows) storeJ).trace.rolledBack = true ∧
     (importData chunkFailJ logFailJ (.rows rows) storeJ).resp.status = 500 ∧
     ((importData chunkFailJ logFailJ (.rows rows) storeJ).resp.body
         = "Failed to import data" ∨
      (importData chunkFailJ logFailJ (.rows rows) storeJ).resp.body
         = "Internal Server Error")) ∧
    ((importDataXlsx chunkFailX logFailX (some (headerRow :: dataRows))
          storeX).store.table = storeX.table ∧
     (importDataXlsx chunkFailX logFailX (some (headerRow :: dataRows))
          storeX).trace.beganTx = true ∧
     (importDataXlsx chunkFailX logFailX (some (headerRow :: dataRows))
          storeX).trace.rolledBack = true ∧
     (importDataXlsx chunkFailX logFailX (some (headerRow :: dataRows))
          storeX).resp.status = 500 ∧
     ((importDataXlsx chunkFailX logFailX (some (headerRow :: dataRows))
          storeX).resp.body = "Failed to import data" ∨
      (importDataXlsx chunkFailX logFailX (some (headerRow :: dataRows))
          storeX).resp.body = "Internal Server Error")) := by
  constructor
  · have hne : rows ≠ [] := by
      intro h
      rw [h, chunks_nil] at hmultiJ
      simp at hmultiJ
    have hmiss : findMissing rows = none := findMissing_none hvalid
    have hrun : (batchUpsert 1000 chunkFailJ storeJ.table rows).failed = true :=
      batchUpsert_fail chunkFailJ storeJ.table rows hfailJ
    rw [importData_valid_rows chunkFailJ logFailJ rows storeJ hne hmiss,
        dbPhase_run_failed chunkFailJ logFailJ rows storeJ hrun]
    by_cases hl : logFailJ 0 = true
    · rw [if_pos hl]
      exact ⟨rfl, rfl, rfl, rfl, Or.inr rfl⟩
    · rw [if_neg hl]
      exact ⟨rfl, rfl, rfl, rfl, Or.inl rfl⟩
  · have hrun : (batchUpsert 1000 chunkFailX storeX.table
        (dataRows.map (projectRow headerRow))).failed = true :=
      batchUpsert_fail chunkFailX storeX.table _ hfailX
    rw [importDataXlsx_valid_header chunkFailX logFailX headerRow dataRows
          storeX hheader,
        dbPhase_run_failed chunkFailX logFailX _ storeX hrun]
    by_cases hl : logFailX 0 = true
    · rw [if_pos hl]
      exact ⟨rfl, rfl, rfl, rfl, Or.inr rfl⟩
    · rw [if_neg hl]
      exact ⟨rfl, rfl, rfl, rfl, Or.inl rfl⟩

/-- Witness for C1 at concrete inputs on both endpoints: 1001 valid JSON
rows (two chunks) with the first chunk query failing, and a sheet with all
sixteen localized headers and 1001 one-cell data rows (two chunks) with
the first chunk query failing. -/
theorem C1_chunk_failure_rolls_back_all_witness :
    (∀ r ∈ List.replicate 1001 exRow, ∀ f ∈ requiredFields, hasKey r f = true) ∧
    1 < (chunks 1000 (List.replicate 1001 exRow)).length ∧
    (∃ k, k < (chunks 1000 (List.replicate 1001 exRow)).length ∧
      (fun _ : Nat => true) k = true) ∧
    (∀ g ∈ requiredLocalized,
      (requiredLocalized.map some).contains (some g) = true) ∧
    1 < (chunks 1000 ((List.replicate 1001 [some "x"]).map
        (projectRow (requiredLocalized.map some)))).length ∧
    (importData (fun _ => true) (fun _ => false)
        (.rows (List.replicate 1001 exRow)) ⟨[], []⟩).store.table = [] ∧
    (importData (fun _ => true) (fun _ => false)
        (.rows (List.replicate 1001 exRow)) ⟨[], []⟩).resp.status = 500 ∧
    (importDataXlsx (fun _ => true) (fun _ => false)
        (some (requiredLocalized.map some :: List.replicate 1001 [some "x"]))
        ⟨[], []⟩).store.table = [] ∧
    (importDataXlsx (fun _ => true) (fun _ => false)
        (some (requiredLocalized.map some :: List.replicate 1001 [some "x"]))
        ⟨[], []⟩).resp.status = 500 := by
  have h1 : ∀ r ∈ List.replicate 1001 exRow, ∀ f ∈ requiredFields,
      hasKey r f = true := by
    intro r hr f hf
    rw [List.eq_of_mem_replicate hr]
    revert hf
    revert f
    decide
  have h2 : 1 < (chunks 1000 (List.replicate 1001 exRow)).length := by
    rw [chunks_length (by omega), List.length_replicate]
    norm_num
  have h3 : ∃ k, k < (chunks 1000 (List.replicate 1001 exRow)).length ∧
      (fun _ : Nat => true) k = true := ⟨0, by omega, rfl⟩
  have h4 : ∀ g ∈ requiredLocalized,
      (requiredLocalized.map some).contains (some g) = true := by decide
  have h5 : 1 < (chunks 1000 ((List.replicate 1001 [some "x"]).map
      (projectRow (requiredLocalized.map some)))).length := by
    rw [chunks_length (by omega), List.length_map, List.length_replicate]
    norm_num
  have h6 : ∃ k, k < (chunks 1000 ((List.replicate 1001 [some "x"]).map
      (projectRow (requiredLocalized.map some)))).length ∧
      (fun _ : Nat => true) k = true := ⟨0, by omega, rfl⟩
  have hmain := C1_chunk_failure_rolls_back_all (List.replicate 1001 exRow)
    (requiredLocalized.map some) (List.replicate 1001 [some "x"])
    ⟨[], []⟩ ⟨[], []⟩ (fun _ => true) (fun _ => false) (fun _ => true)
    (fun _ => false) h1 h2 h3 h4 h5 h6
  exact ⟨h1, h2, h3, h4, h5, hmain.1.1, hmain.1.2.2.2.1,
    hmain.2.1, hmain.2.2.2.2.1⟩

/-- C2 counterexample: the store holds a row with `call_id = "1"` and
`caller_number = "old"`; submitting a batch whose record has the same
`call_id` but `caller_number = "new"` reports success, yet the stored row
still carries the old field values — the upsert clause
`ON DUPLICATE KEY UPDATE call_id = VALUES(call_id)` does not update the
row in place with the submitted values. -/
theorem C2_upsert_counterexample :
    (importData (fun _ => false) (fun _ => false) (.rows [exRow])
        ⟨[exOldRow], []⟩).resp.status = 200 ∧
    (importData (fun _ => false) (fun _ => false) (.rows [exRow])
        ⟨[exOldRow], []⟩).store.table = [exOldRow] ∧
    exOldRow.caller_number = "old" ∧ (toDbRow exRow).caller_number = "new" ∧
    toDbRow exRow ≠ exOldRow := by
  decide

/-- C2 amended: for every record in a chunk whose `call_id` already exists
in the table, the upsert statement leaves the stored rows exactly as they
were (the update list only reassigns `call_id` to its own value); every
record with a new `call_id` is inserted after the pre-existing rows, and
afterwards every submitted record's business key has a row. -/
theorem C2_amended_duplicate_keys_keep_old_row (table batch : List DbRow) :
    ∃ s, applyChunk table batch = table ++ s ∧
      (∀ r ∈ s, r ∈ batch) ∧
      (∀ r ∈ s, ∀ x ∈ table, x.call_id ≠ r.call_id) ∧
      (∀ r ∈ batch, ∃ x ∈ applyChunk table batch, x.call_id = r.call_id) :=
  applyChunk_decomp table batch

/-- C3 counterexample: a one-row import whose chunk write and commit
succeed but whose success-audit write raises (and whose second, failure-log
write succeeds): the rows are durably committed, yet the caller receives
the 500 failure response instead of the success count. -/
theorem C3_audit_failure_counterexample :
    (importData (fun _ => false) (fun k => k == 0) (.rows [exRow])
        ⟨[], []⟩).store.table = [toDbRow exRow] ∧
    (importData (fun _ => false) (fun k => k == 0) (.rows [exRow])
        ⟨[], []⟩).resp = ⟨"Failed to import data", 500⟩ := by
  decide

/-- C3 amended: a failure of the audit-log write does change the outcome
reported to the caller.  With the first audit write raising, the caller
always receives a 500 response: after a successful commit the inner catch
handler answers "Failed to import data" (or "Internal Server Error" if the
failure-log write also raises) even though the imported rows stay
committed; after a rollback the failure-log raise escalates to
"Internal Server Error".  The committed data itself is never affected by
the audit failure. -/
theorem C3_amended_audit_failure_changes_response
    (rows : List JsonRow) (store : Store) (chunkFail logFail : Nat → Bool)
    (hne : rows ≠ []) (hmiss : findMissing rows = none)
    (hlog : logFail 0 = true) :
    (importData chunkFail logFail (.rows rows) store).resp.status = 500 ∧
    ((batchUpsert 1000 chunkFail store.table rows).failed = false →
      (importData chunkFail logFail (.rows rows) store).store.table
        = (batchUpsert 1000 chunkFail store.table rows).tx ∧
      (importData chunkFail logFail (.rows rows) store).resp.body
        = (if logFail 1 then "Internal Server Error" else "Failed to import data")) ∧
    ((batchUpsert 1000 chunkFail store.table rows).failed = true →
      (importData chunkFail logFail (.rows rows) store).store.table = store.table ∧
      (importData chunkFail logFail (.rows rows) store).resp.body
        = "Internal Server Error") := by
  rw [importData_valid_rows chunkFail logFail rows store hne hmiss]
  cases hrun : (batchUpsert 1000 chunkFail store.table rows).failed with
  | true =>
    rw [dbPhase_run_failed chunkFail logFail rows store hrun, if_pos hlog]
    exact ⟨rfl, fun h => by simp [hrun] at h, fun _ => ⟨rfl, rfl⟩⟩
  | false =>
    rw [dbPhase_run_ok chunkFail logFail rows store hrun, if_pos hlog]
    by_cases hl1 : logFail 1 = true
    · rw [if_pos hl1]
      exact ⟨rfl, fun _ => ⟨rfl, by rw [if_pos hl1]⟩,
        fun h => by simp [hrun] at h⟩
    · rw [if_neg hl1]
      exact ⟨rfl, fun _ => ⟨rfl, by rw [if_neg hl1]⟩,
        fun h => by simp [hrun] at h⟩

/-- Witness for C3's amended claim at the counterexample input. -/
theorem C3_amended_audit_failure_changes_response_witness :
    ([exRow] ≠ ([] : List JsonRow)) ∧ findMissing [exRow] = none ∧
    ((fun k => k == 0) 0 = true) ∧
    (importData (fun _ => false) (fun k => k == 0) (.rows [exRow])
        ⟨[], []⟩).resp.status = 500 := by
  refine ⟨by decide, by decide, rfl, ?_⟩
  exact (C3_amended_audit_failure_changes_response [exRow] ⟨[], []⟩
    (fun _ => false) (fun k => k == 0) (by decide) (by decide) rfl).1

/-- C4: for every record set of size `N > 0` and chunk size `C > 0`, with
no failing chunk query the Batch Upsert Engine issues exactly `⌈N/C⌉`
chunk statements, the chunks partition the record set consecutively in
input order with at most `C` records each, the run reports success, and
the reported imported-row count equals `N`. -/
theorem C4_chunk_count_and_reported_total
    (rows : List JsonRow) (c : Nat) (chunkFail : Nat → Bool) (table : List DbRow)
    (hN : 0 < rows.length) (hC : 0 < c)
    (hok : ∀ k, k < (chunks c rows).length → chunkFail k = false) :
    (batchUpsert c chunkFail table rows).issued = (rows.length + c - 1) / c ∧
    (batchUpsert c chunkFail table rows).failed = false ∧
    (batchUpsert c chunkFail table rows).successCount = rows.length ∧
    (chunks c rows).flatten = rows ∧
    (∀ b ∈ chunks c rows, b.length ≤ c) := by
  have hc : c ≠ 0 := by omega
  rw [batchUpsert_ok hc chunkFail table rows hok]
  exact ⟨by rw [show (⟨_, (chunks c rows).length, rows.length, false⟩ : ChunkRun).issued
            = (chunks c rows).length from rfl, chunks_length hc],
    rfl, rfl, chunks_flatten hc rows, chunks_mem_length_le hc rows⟩

/-- Witness for C4: three records with chunk size two (two chunks). -/
theorem C4_chunk_count_and_reported_total_witness :
    0 < (List.replicate 3 exRow).length ∧ 0 < 2 ∧
    (∀ k, k < (chunks 2 (List.replicate 3 exRow)).length →
      (fun _ : Nat => false) k = false) ∧
    (batchUpsert 2 (fun _ => false) [] (List.replicate 3 exRow)).issued = 2 ∧
    (batchUpsert 2 (fun _ => false) [] (List.replicate 3 exRow)).successCount = 3 := by
  refine ⟨by decide, by decide, fun k _ => rfl, ?_, ?_⟩
  · exact (C4_chunk_count_and_reported_total (List.replicate 3 exRow) 2
      (fun _ => false) [] (by decide) (by decide) (fun k _ => rfl)).1
  · exact (C4_chunk_count_and_reported_total (List.replicate 3 exRow) 2
      (fun _ => false) [] (by decide) (by decide) (fun k _ => rfl)).2.2.1

/-- C5: a structured-import batch in which some row lacks a required
canonical field is rejected with a 400 naming exactly the first missing
field (in `requiredFields` order) of the first offending row, the store is
untouched, and no connection is acquired and no transaction opened. -/
theorem C5_validation_names_first_missing_field
    (pre post : List JsonRow) (row : JsonRow) (fpre fsuf : List String)
    (f : String) (store : Store) (chunkFail logFail : Nat → Bool)
    (hreq : requiredFields = fpre ++ f :: fsuf)
    (hpre : ∀ r ∈ pre, ∀ g ∈ requiredFields, hasKey r g = true)
    (hfpre : ∀ g ∈ fpre, hasKey row g = true)
    (hf : hasKey row f = false) :
    importData chunkFail logFail (.rows (pre ++ row :: post)) store
      = ⟨⟨"Missing required field: " ++ f, 400⟩, store, Trace.untouched⟩ := by
  have hmiss : findMissing (pre ++ row :: post) = some f :=
    findMissing_first post fsuf hreq hpre hfpre hf
  have hne : (pre ++ row :: post).isEmpty = false := by
    cases pre <;> rfl
  simp only [importData, hne, Bool.false_eq_true, if_false, hmiss]

/-- Witness for C5 at the spec's scenario: one row carrying only `call_id`
and `caller_number` is rejected naming `callee_number`. -/
theorem C5_validation_names_first_missing_field_witness :
    requiredFields = ["call_id", "caller_number"] ++ "callee_number" ::
      ["call_type", "call_time", "agent_call_time", "department",
       "agent_name", "agent_id", "call_status", "skill_group", "end_node",
       "key_track", "province", "city", "pbx_name"] ∧
    (∀ g ∈ ["call_id", "caller_number"],
      hasKey [("call_id", "1"), ("caller_number", "x")] g = true) ∧
    hasKey [("call_id", "1"), ("caller_number", "x")] "callee_number" = false ∧
    importData (fun _ => false) (fun _ => false)
        (.rows [[("call_id", "1"), ("caller_number", "x")]]) ⟨[], []⟩
      = ⟨⟨"Missing required field: callee_number", 400⟩, ⟨[], []⟩,
         Trace.untouched⟩ := by
  refine ⟨by decide, by decide, by decide, ?_⟩
  exact C5_validation_names_first_missing_field [] []
    [("call_id", "1"), ("caller_number", "x")] ["call_id", "caller_number"] _
    "callee_number" ⟨[], []⟩ (fun _ => false) (fun _ => false) rfl
    (by simp) (by decide) (by decide)

/-- C6: a spreadsheet import whose header row lacks a required localized
field name is rejected with a 400 naming the first missing localized
header (in `requiredFields` order), before any data row is processed: the
store is untouched and no connection is acquired. -/
theorem C6_missing_localized_header_rejected
    (headerRow : List (Option String)) (dataRows : List (List (Option String)))
    (fpre fsuf : List String) (f : String) (store : Store)
    (chunkFail logFail : Nat → Bool)
    (hreq : requiredLocalized = fpre ++ f :: fsuf)
    (hpre : ∀ g ∈ fpre, headerRow.contains (some g) = true)
    (hf : headerRow.contains (some f) = false) :
    importDataXlsx chunkFail logFail (some (headerRow :: dataRows)) store
      = ⟨⟨"Missing required field: " ++ f, 400⟩, store, Trace.untouched⟩ := by
  have hfind : requiredLocalized.find?
      (fun g => !(headerRow.contains (some g))) = some f := by
    rw [hreq]
    exact find?_first fsuf (fun g hg => by rw [hpre g hg]; rfl)
      (by rw [hf]; rfl)
  simp only [importDataXlsx, hfind]

/-- Witness for C6 at the spec's scenario: a header row missing `省`. -/
theorem C6_missing_localized_header_rejected_witness :
    requiredLocalized = ["主叫号码", "被叫号码", "呼叫类型", "呼叫时间",
        "坐席通话时间", "部门", "接听坐席", "工号", "接听状态", "呼入技能组",
        "终结节点", "按键轨迹"] ++ "省" :: ["市", "通话ID", "PBX名称"] ∧
    importDataXlsx (fun _ => false) (fun _ => false)
        (some [(["主叫号码", "被叫号码", "呼叫类型", "呼叫时间", "坐席通话时间",
                 "部门", "接听坐席", "工号", "接听状态", "呼入技能组",
                 "终结节点", "按键轨迹"].map some), [some "x"]]) ⟨[], []⟩
      = ⟨⟨"Missing required field: 省", 400⟩, ⟨[], []⟩, Trace.untouched⟩ := by
  refine ⟨by decide, ?_⟩
  exact C6_missing_localized_header_rejected _ _
    ["主叫号码", "被叫号码", "呼叫类型", "呼叫时间", "坐席通话时间", "部门",
     "接听坐席", "工号", "接听状态", "呼入技能组", "终结节点", "按键轨迹"]
    ["市", "通话ID", "PBX名称"] "省" ⟨[], []⟩ (fun _ => false) (fun _ => false)
    rfl (by decide) (by decide)

/-- C7 counterexample: with all sixteen localized headers present and a
data row of a single cell, the projected record carries only the field
mapped from the first header — in particular it does not carry `province`,
so a produced record does not always carry all 16 canonical fields
(trailing absent cells are skipped, not filled with empty strings). -/
theorem C7_short_row_counterexample :
    (projectRow (requiredLocalized.map some) [some "x"]).map Prod.fst
      = ["caller_number"] ∧
    ¬ ("province" ∈ (projectRow (requiredLocalized.map some)
        [some "x"]).map Prod.fst) := by
  decide

/-- C7 amended: projection through the field mapping drops cells under
unmapped (or out-of-range or blank) headers, and a produced record carries
a canonical field exactly when some present cell of the row sits at an
index whose header is mapped to that field — absent cells (holes, and
positions past the end of a row shorter than the header row) contribute
nothing, so the corresponding canonical fields are missing from the
record rather than empty strings. -/
theorem C7_amended_projection_key_characterization
    (headers row : List (Option String)) (m : String) :
    m ∈ (projectRow headers row).map Prod.fst ↔
      ∃ (j : Nat) (v h : String), row[j]? = some (some v) ∧
        headers[j]? = some (some h) ∧ fieldMappingLookup h = some m :=
  projectRow_keys headers row m

/-- C9: a structured-import request whose `rows` value is absent, not an
array, or an empty array is answered 400 "Missing or invalid data" with
the store untouched (no connection, no transaction, no audit entry), and
is never reported as a successful import of 0 rows. -/
theorem C9_missing_or_invalid_rows_rejected
    (body : RequestBody) (store : Store) (chunkFail logFail : Nat → Bool)
    (h : body = .rowsAbsent ∨ body = .rowsNotArray ∨ body = .rows []) :
    importData chunkFail logFail body store
      = ⟨⟨"Missing or invalid data", 400⟩, store, Trace.untouched⟩ ∧
    (importData chunkFail logFail body store).resp.status ≠ 200 := by
  rcases h with rfl | rfl | rfl <;>
    exact ⟨rfl, by show (400 : Nat) ≠ 200; decide⟩

/-- Witness for C9 with an empty `rows` array. -/
theorem C9_missing_or_invalid_rows_rejected_witness :
    ((.rows [] : RequestBody) = .rowsAbsent ∨
     (.rows [] : RequestBody) = .rowsNotArray ∨
     (.rows [] : RequestBody) = .rows []) ∧
    importData (fun _ => false) (fun _ => false) (.rows []) ⟨[], []⟩
      = ⟨⟨"Missing or invalid data", 400⟩, ⟨[], []⟩, Trace.untouched⟩ := by
  refine ⟨Or.inr (Or.inr rfl), ?_⟩
  exact (C9_missing_or_invalid_rows_rejected (.rows []) ⟨[], []⟩
    (fun _ => false) (fun _ => false) (Or.inr (Or.inr rfl))).1

/-- C8: for every interleaving of two fire-and-acknowledge requests
sharing one idempotency key, arriving within one TTL window of each other,
in which both requests complete: both receive the success token, the
atomic check-and-mark never lets both observe the key as fresh, and the
downstream persistence write for that key executes at most once. -/
theorem C8_concurrent_dedup_at_most_one_persist
    (key : String) (time1 time2 : Nat) (sched : List Bool)
    (hw1 : time1 < time2 + TTLms) (hw2 : time2 < time1 + TTLms)
    (hdone1 : (run key (initSys time1 time2) sched).t1.pc = Phase.done)
    (hdone2 : (run key (initSys time1 time2) sched).t2.pc = Phase.done) :
    (run key (initSys time1 time2) sched).t1.resp = some "success" ∧
    (run key (initSys time1 time2) sched).t2.resp = some "success" ∧
    ¬ ((run key (initSys time1 time2) sched).t1.fresh = true ∧
       (run key (initSys time1 time2) sched).t2.fresh = true) ∧
    (run key (initSys time1 time2) sched).persistCount ≤ 1 := by
  obtain ⟨ht1, ht2, hd1, hd2, hcase⟩ := @inv_run key time1 time2 hw1 hw2 sched
  refine ⟨hd1 hdone1, hd2 hdone2, ?_, ?_⟩
  · rcases hcase with ⟨_, hpc1, _⟩ | ⟨t, _, _, hmk⟩
    · rw [hdone1] at hpc1
      exact absurd hpc1 (by decide)
    · rcases hmk with ⟨⟨_, _⟩, hfo, _⟩ | ⟨⟨_, _⟩, hfo, _⟩
      · intro hb
        rw [hfo] at hb
        exact absurd hb.2 (by decide)
      · intro hb
        rw [hfo] at hb
        exact absurd hb.1 (by decide)
  · rcases hcase with ⟨_, hpc1, _⟩ | ⟨t, _, _, hmk⟩
    · rw [hdone1] at hpc1
      exact absurd hpc1 (by decide)
    · rcases hmk with ⟨⟨_, hacct⟩, _⟩ | ⟨⟨_, hacct⟩, _⟩
      · rcases hacct with ⟨hpc, _⟩ | ⟨_, hp⟩
        · rw [hdone1] at hpc
          exact absurd hpc (by decide)
        · omega
      · rcases hacct with ⟨hpc, _⟩ | ⟨_, hp⟩
        · rw [hdone2] at hpc
          exact absurd hpc (by decide)
        · omega

/-- Witness for C8: both requests at time 0, request 1 scheduled through
check, persist and respond, then request 2 through check and respond. -/
theorem C8_concurrent_dedup_at_most_one_persist_witness :
    (0 < 0 + TTLms) ∧
    (run "abc" (initSys 0 0) [true, true, true, false, false]).t1.pc
      = Phase.done ∧
    (run "abc" (initSys 0 0) [true, true, true, false, false]).t2.pc
      = Phase.done ∧
    (run "abc" (initSys 0 0) [true, true, true, false, false]).persistCount ≤ 1 := by
  refine ⟨by decide, by decide, by decide, ?_⟩
  exact (C8_concurrent_dedup_at_most_one_persist "abc" 0 0
    [true, true, true, false, false] (by decide) (by decide)
    (by decide) (by decide)).2.2.2

/-- C10 (the code bug, proved as what the code actually does): for every
HMAC primitive with the SHA-256 output shape, every serialized header and
payload and every secret, `verifyJWT` rejects the token freshly produced
by `generateJWT` with "Invalid token" — the round-trip never succeeds,
because `generateJWT` renders the 32 signature bytes as 64 hex characters
while `verifyJWT` decodes that signature part with `atob` (base64),
obtaining 48 bytes that can never equal the recomputed 32-byte MAC. -/
theorem C10_verify_rejects_every_generated_token
    (hmac : List Nat → List Nat → List Nat)
    (hlen : ∀ k m, (hmac k m).length = 32)
    (hbyte : ∀ k m, ∀ b ∈ hmac k m, b < 256)
    (parseExp : List Nat → Nat) (headerJson payloadJson secret : List Nat)
    (now : Nat) :
    verifyJWT hmac parseExp (generateJWT hmac headerJson payloadJson secret)
        secret now
      = Except.error "Invalid token" := by
  have heh := base64UrlEncode_ne_dot headerJson
  have hep := base64UrlEncode_ne_dot payloadJson
  have hmacb : ∀ b ∈ hmac secret ((base64UrlEncode headerJson
      ++ '.' :: base64UrlEncode payloadJson).map Char.toNat), b < 256 :=
    hbyte _ _
  have hprops := hexFlatten_props hmacb
  have hsiglen : (((hmac secret ((base64UrlEncode headerJson
      ++ '.' :: base64UrlEncode payloadJson).map Char.toNat)).map
        hexByte).flatten).length = 64 := by
    rw [hexFlatten_length, hlen]
  have htok : generateJWT hmac headerJson payloadJson secret
      = base64UrlEncode headerJson ++ ('.' :: base64UrlEncode payloadJson)
        ++ ('.' :: ((hmac secret ((base64UrlEncode headerJson
            ++ '.' :: base64UrlEncode payloadJson).map Char.toNat)).map
              hexByte).flatten) := rfl
  rw [htok]
  apply verify_reject_parts hmac parseExp secret now _ _ _ heh hep
    (fun ch h => (hprops ch h).2) (fun ch h => (hprops ch h).1)
    (by rw [hsiglen])
  rw [hsiglen, hlen]
  decide

/-- Witness for C10 at a concrete HMAC stub of the right shape and
concrete header, payload and secret bytes. -/
theorem C10_verify_rejects_every_generated_token_witness :
    (∀ k m : List Nat,
      ((fun (_ _ : List Nat) => List.range 32) k m).length = 32) ∧
    (∀ k m : List Nat, ∀ b ∈ (fun (_ _ : List Nat) => List.range 32) k m,
      b < 256) ∧
    verifyJWT (fun _ _ => List.range 32) (fun _ => 0)
        (generateJWT (fun _ _ => List.range 32) [123, 125] [123, 125] [115])
        [115] 0
      = Except.error "Invalid token" := by
  refine ⟨fun k m => by simp, fun k m b hb => by simp at hb; omega, ?_⟩
  exact C10_verify_rejects_every_generated_token (fun _ _ => List.range 32)
    (fun k m => by simp) (fun k m b hb => by simp at hb; omega)
    (fun _ => 0) [123, 125] [123, 125] [115] 0
